import Mathlib

/-!
Verification of the InstaAnalyzer heuristic inference engine.

The definitions below are a shallow embedding of `analyze_insta_data.py` and
`location_processor.py`.  Machine reals of the Python code are modelled by `ℚ`
(exact arithmetic; binary floating point rounding is not modelled), regular
expressions by explicit character scanners (Python `\w` is modelled by ASCII
alphanumerics plus underscore), Python `None`-able values by `Option`, and
Python dictionaries by insertion-ordered association lists.  Functions named
after the source keep the source structure; definitions whose names end in
`Spec` or `_spec` transcribe the specification wording instead and are compared
with the source-shaped definitions.
-/

namespace InstaAnalyzer

/-! ## Python-style text utilities -/

/-- Emptiness of a string through its character list (Python: `not s`). -/
def strEmpty (s : String) : Bool := s.data.isEmpty

/-- Lowercasing through the character list (Python `str.lower`, ASCII range). -/
def toLowerStr (s : String) : String := String.mk (s.data.map Char.toLower)

/-- Truthiness of an optional string (Python: `if s:` for `s : Optional[str]`). -/
def tstr : Option String → Bool
  | none => false
  | some s => !strEmpty s

/-- Characters matched by the regex class `\w` (ASCII approximation). -/
def isWordChar (c : Char) : Bool := c.isAlphanum || c = '_'

/-- Characters matched by the mention regex class (letters, digits, dot, underscore). -/
def isMentionChar (c : Char) : Bool := c.isAlphanum || c = '.' || c = '_'

/-- Substring containment, Python `pat in s`. -/
def containsStr (s pat : String) : Bool := decide (pat.data <:+: s.data)

/-- State of the marker/token scanner: outside any token, just after a marker
character, or inside a token (accumulated characters in reverse). -/
inductive ScanSt where
  | idle : ScanSt
  | armed : ScanSt
  | inTok : List Char → ScanSt

/-- Scanner equivalent to `re.findall(marker + r"(C+)", text)` for a character
class `C`: emits each maximal nonempty run of `valid` characters that follows
an occurrence of `marker`, scanning left to right without overlap. -/
def tagScanGo (marker : Char) (valid : Char → Bool) : ScanSt → List Char → List String
  | .idle, [] => []
  | .armed, [] => []
  | .inTok acc, [] => [String.mk acc.reverse]
  | .idle, c :: cs =>
      if c = marker then tagScanGo marker valid .armed cs
      else tagScanGo marker valid .idle cs
  | .armed, c :: cs =>
      if valid c then tagScanGo marker valid (.inTok [c]) cs
      else if c = marker then tagScanGo marker valid .armed cs
      else tagScanGo marker valid .idle cs
  | .inTok acc, c :: cs =>
      if valid c then tagScanGo marker valid (.inTok (c :: acc)) cs
      else
        String.mk acc.reverse ::
          (if c = marker then tagScanGo marker valid .armed cs
           else tagScanGo marker valid .idle cs)

/-- `extract_hashtags`: all tokens of the regex `#(\w+)`, duplicates retained. -/
def extract_hashtags (text : String) : List String :=
  tagScanGo '#' isWordChar .idle text.data

/-- All tokens of the mention regex `@([A-Za-z0-9._]+)` (line 412 of the source). -/
def rawMentions (text : String) : List String :=
  tagScanGo '@' isMentionChar .idle text.data

/-- Maximal runs of word characters of a text, used to model counting of
word-boundary regex alternations (a pattern `\b(?:w1|w2|...)\b` over words made
of word characters matches exactly the maximal word runs equal to some `wi`). -/
def wordRunsGo : Option (List Char) → List Char → List String
  | none, [] => []
  | some acc, [] => [String.mk acc.reverse]
  | none, c :: cs =>
      if isWordChar c then wordRunsGo (some [c]) cs else wordRunsGo none cs
  | some acc, c :: cs =>
      if isWordChar c then wordRunsGo (some (c :: acc)) cs
      else String.mk acc.reverse :: wordRunsGo none cs

/-- Maximal word-character runs of a text. -/
def wordRuns (text : String) : List String := wordRunsGo none text.data

/-- Python `round` on an exact rational: round half to even. -/
def pyRound (q : ℚ) : ℤ :=
  let f := ⌊q⌋
  let r := q - f
  if r < 1/2 then f
  else if 1/2 < r then f + 1
  else if f % 2 = 0 then f else f + 1

/-- Python `round(q, 1)`: round half to even at one decimal digit. -/
def pyRound1 (q : ℚ) : ℚ := (pyRound (10 * q) : ℚ) / 10

/-- Stable insertion of one element: placed after every already-present element
`y` with `le y x`. -/
def stableInsert {α : Type} (le : α → α → Bool) (x : α) : List α → List α
  | [] => [x]
  | y :: ys => if le y x then y :: stableInsert le x ys else x :: y :: ys

/-- Stable sort by a total preorder `le`, as Python `list.sort` (equal elements
keep their original order). -/
def stableSort {α : Type} (le : α → α → Bool) (l : List α) : List α :=
  l.foldl (fun acc x => stableInsert le x acc) []

/-! ## Post records

One timeline entry, holding the fields of `post["node"]` that the analyzer
reads.  `user_username` is `node.user.username` (the creator's own username as
embedded in the post), `owner_username` is `node.owner.username`, and
`coauthor_usernames` collects `username` of each entry of
`node.coauthor_producers`. -/

structure Post where
  caption : String
  taken_at : Option Int
  like_count : Nat
  comment_count : Nat
  is_paid_partnership : Bool
  user_username : Option String
  owner_username : Option String
  coauthor_usernames : List (Option String)
deriving DecidableEq

/-- Recency of a post: `datetime.fromtimestamp(taken_at) > recent_cutoff`,
with the cutoff passed in as a unix timestamp. -/
def isRecentTs (cutoff : Int) : Option Int → Bool
  | none => false
  | some t => decide (cutoff < t)

/-! ## Collaboration status rule chain (`identify_collaborations`, lines 657-706) -/

/-- The creator's own username, taken from the first post's embedded user data. -/
def getUname : List Post → Option String
  | [] => none
  | p :: _ => p.user_username

/-- The hashtag fragments of rule 2, in source order. -/
def status_hashtags : List String :=
  ["ads", "ad", "collaboration", "collab", "usemycode", "partnership", "partner"]

/-- Rule 1: the post is flagged as a paid partnership. -/
def rule1 (p : Post) : Bool := p.is_paid_partnership

/-- Rule 2: the lowercased caption contains `#tag` for one of the status hashtags. -/
def rule2 (p : Post) : Bool :=
  !(strEmpty p.caption) &&
    status_hashtags.any (fun tag => containsStr (toLowerStr p.caption) ("#" ++ tag))

/-- Rule 3: the post carries an owner username different from `uname`. -/
def rule3 (uname : Option String) (p : Post) : Bool :=
  tstr p.owner_username && decide (p.owner_username ≠ uname)

/-- Rule 4: some coauthor carries a username different from `uname`. -/
def rule4 (uname : Option String) (p : Post) : Bool :=
  p.coauthor_usernames.any (fun c => tstr c && decide (c ≠ uname))

/-- One `for post in posts:` loop of the status determination: sets the status
to `"Active"` at the first post satisfying the rule and keeps it afterwards. -/
def statusLoop (r : Post → Bool) (st : Option String) (posts : List Post) : Option String :=
  posts.foldl (fun acc p => if acc = some "Active" then acc else if r p then some "Active" else acc) st

/-- The status determination of `identify_collaborations`, shaped like the
source: four sequential loops, each entered only while the status is unset. -/
def collabStatus (posts : List Post) : Option String :=
  let uname := getUname posts
  let s1 := statusLoop rule1 none posts
  let s2 := if s1 = none then statusLoop rule2 s1 posts else s1
  let s3 := if s2 = none then statusLoop (rule3 uname) s2 posts else s2
  let s4 := if s3 = none then statusLoop (rule4 uname) s3 posts else s3
  s4

/-- The status as worded by the specification: a strict first-match rule chain,
each rule tested over all posts before falling to the next, `null` when no rule
matches. -/
def collabStatusSpec (posts : List Post) : Option String :=
  let uname := getUname posts
  if posts.any rule1 then some "Active"
  else if posts.any rule2 then some "Active"
  else if posts.any (rule3 uname) then some "Active"
  else if posts.any (rule4 uname) then some "Active"
  else none

/-! ## Gender detection (`detect_gender_from_text`, lines 65-163)

The static reference tables (name lists loaded from `malenames.txt` /
`femalenames.txt` and the gendered-niche keyword map from
`gendered_niches.json`) are external data files, modelled as an explicit
configuration value. -/

structure GenderCfg where
  maleNames : List String
  femaleNames : List String
  femaleDominated : List String
  maleDominated : List String

/-- Words of the female indicator pattern `\b(?:she|her|...)\b`. -/
def femaleWords : List String :=
  ["she", "her", "woman", "girl", "female", "mom", "mother", "wife", "daughter", "sister"]

/-- Words of the male indicator pattern `\b(?:he|him|...)\b`. -/
def maleWords : List String :=
  ["he", "him", "man", "boy", "male", "dad", "father", "husband", "son", "brother"]

/-- Number of matches of the two indicator patterns of one gender in one text:
case-insensitive word-boundary matches of the word list plus occurrences of the
gender symbol character. -/
def countGender (ws : List String) (symbol : Char) (text : String) : Nat :=
  (wordRuns text).countP (fun r => ws.contains (toLowerStr r)) +
    text.data.countP (fun c => c = symbol)

/-- Matches of the female indicators over the bio (when nonempty) and every
nonempty caption. -/
def femaleMatchCount (bio : String) (captions : List String) : Nat :=
  (if !(strEmpty bio) then countGender femaleWords '♀' bio else 0) +
    (captions.map (fun c => if !(strEmpty c) then countGender femaleWords '♀' c else 0)).sum

/-- Matches of the male indicators over the bio (when nonempty) and every
nonempty caption. -/
def maleMatchCount (bio : String) (captions : List String) : Nat :=
  (if !(strEmpty bio) then countGender maleWords '♂' bio else 0) +
    (captions.map (fun c => if !(strEmpty c) then countGender maleWords '♂' c else 0)).sum

/-- Python `any(keyword in s for keyword in ks)`. -/
def anyKeywordIn (ks : List String) (s : String) : Bool := ks.any (fun k => containsStr s k)

/-- `detect_gender_from_text`, shaped like the source. -/
def detect_gender_from_text (cfg : GenderCfg) (bio : String) (captions : List String)
    (first_name : Option String) (niche : Option String) : String × ℚ :=
  let name_score : ℤ :=
    if tstr first_name then
      if cfg.maleNames.contains (toLowerStr (first_name.getD "")) then -1
      else if cfg.femaleNames.contains (toLowerStr (first_name.getD "")) then 1
      else 0
    else 0
  let female_matches := femaleMatchCount bio captions
  let male_matches := maleMatchCount bio captions
  let total_matches := female_matches + male_matches
  let content_score : ℚ :=
    if 0 < total_matches then ((female_matches : ℚ) - male_matches) / total_matches else 0
  let nicheLower := toLowerStr (niche.getD "")
  let niche_score : ℚ :=
    if tstr niche then
      if anyKeywordIn cfg.femaleDominated nicheLower then 4/5
      else if anyKeywordIn cfg.maleDominated nicheLower then -(4/5)
      else 0
    else 0
  let final_score : ℚ :=
    (1/2) * (name_score : ℚ) + (7/20) * content_score + (3/20) * niche_score
  if 1/10 < final_score then ("Female", |final_score|)
  else if final_score < -(1/10) then ("Male", |final_score|)
  else
    if tstr niche && anyKeywordIn cfg.femaleDominated nicheLower then ("Female", 3/5)
    else if tstr niche && anyKeywordIn cfg.maleDominated nicheLower then ("Male", 3/5)
    else if tstr first_name && cfg.maleNames.contains (toLowerStr (first_name.getD "")) then
      ("Male", 7/10)
    else if tstr first_name && cfg.femaleNames.contains (toLowerStr (first_name.getD "")) then
      ("Female", 7/10)
    else ("Female", 1/2)

/-- Name sub-score as worded by the specification: `-1`/`1` from the male and
female name lists, `0` otherwise. -/
def nameScoreSpec (cfg : GenderCfg) (first_name : Option String) : ℤ :=
  if tstr first_name then
    if cfg.maleNames.contains (toLowerStr (first_name.getD "")) then -1
    else if cfg.femaleNames.contains (toLowerStr (first_name.getD "")) then 1
    else 0
  else 0

/-- Content sub-score as worded by the specification:
`(female_matches - male_matches) / (female_matches + male_matches)`, `0` when
there is no match. -/
def contentScoreSpec (bio : String) (captions : List String) : ℚ :=
  let f := femaleMatchCount bio captions
  let m := maleMatchCount bio captions
  if 0 < f + m then ((f : ℚ) - m) / ((f + m : ℕ) : ℚ) else 0

/-- Niche sub-score as worded by the specification: `±0.8` on a gendered-niche
keyword match, `0` otherwise. -/
def nicheScoreSpec (cfg : GenderCfg) (niche : Option String) : ℚ :=
  if tstr niche then
    if anyKeywordIn cfg.femaleDominated (toLowerStr (niche.getD "")) then 4/5
    else if anyKeywordIn cfg.maleDominated (toLowerStr (niche.getD "")) then -(4/5)
    else 0
  else 0

/-- Weighted sum of the three sub-scores with weights name 0.5, content 0.35,
niche 0.15. -/
def finalScoreSpec (cfg : GenderCfg) (bio : String) (captions : List String)
    (first_name : Option String) (niche : Option String) : ℚ :=
  (1/2) * (nameScoreSpec cfg first_name : ℚ) + (7/20) * contentScoreSpec bio captions +
    (3/20) * nicheScoreSpec cfg niche

/-- The ordered fallback chain for scores inside `(-0.1, 0.1)`: gendered-niche
lists, then name lists, then the global default `("Female", 0.5)`. -/
def genderFallbackSpec (cfg : GenderCfg) (first_name : Option String)
    (niche : Option String) : String × ℚ :=
  if tstr niche && anyKeywordIn cfg.femaleDominated (toLowerStr (niche.getD "")) then ("Female", 3/5)
  else if tstr niche && anyKeywordIn cfg.maleDominated (toLowerStr (niche.getD "")) then ("Male", 3/5)
  else if tstr first_name && cfg.maleNames.contains (toLowerStr (first_name.getD "")) then
    ("Male", 7/10)
  else if tstr first_name && cfg.femaleNames.contains (toLowerStr (first_name.getD "")) then
    ("Female", 7/10)
  else ("Female", 1/2)

/-- Gender detection as worded by the specification: threshold `±0.1` on the
weighted score, otherwise the fallback chain. -/
def detect_gender_spec (cfg : GenderCfg) (bio : String) (captions : List String)
    (first_name : Option String) (niche : Option String) : String × ℚ :=
  let f := finalScoreSpec cfg bio captions first_name niche
  if 1/10 < f then ("Female", |f|)
  else if f < -(1/10) then ("Male", |f|)
  else genderFallbackSpec cfg first_name niche

/-- The special-case correction of `analyze_user_info` (lines 1119-1123): a
first name whose lowercase form is `"chris"` classified `"Female"` is forced to
`("Male", 0.85)`. -/
def applyChrisFix (first_name : Option String) (g : String × ℚ) : String × ℚ :=
  if tstr first_name && (toLowerStr (first_name.getD "") == "chris") && (g.1 == "Female") then
    ("Male", 17/20)
  else g

/-- Final gender of the analysis record: the detection chain followed by the
special-case correction. -/
def genderWithFix (cfg : GenderCfg) (bio : String) (captions : List String)
    (first_name : Option String) (niche : Option String) : String × ℚ :=
  applyChrisFix first_name (detect_gender_from_text cfg bio captions first_name niche)

/-! ## Age extraction (`extract_age`, lines 190-266)

Each regex of the source is modelled by a matcher that decides a match at one
position, and `scanFirst` mirrors `re.findall(...)[0]`: the leftmost match of
the whole text.  Matching is case-insensitive as in the source
(`re.IGNORECASE`). -/

/-- Whitespace characters of the regex class `\s` (ASCII approximation). -/
def isSpaceChar (c : Char) : Bool :=
  c = ' ' || c = '\t' || c = '\n' || c = '\x0b' || c = '\x0c' || c = '\r'

/-- Case-insensitive match of a lowercase literal; returns the rest of the
input on success. -/
def matchLitCI : List Char → List Char → Option (List Char)
  | [], cs => some cs
  | _ :: _, [] => none
  | l :: ls, c :: cs => if c.toLower = l then matchLitCI ls cs else none

/-- Numeric value of a digit character. -/
def digitVal (c : Char) : Nat := c.toNat - 48

/-- Greedy `\d{1,2}` with nothing after it: value of the first one or two
digit characters. -/
def take2Digits : List Char → Option Nat
  | [] => none
  | [c1] => if c1.isDigit then some (digitVal c1) else none
  | c1 :: c2 :: _ =>
      if c1.isDigit then
        if c2.isDigit then some (10 * digitVal c1 + digitVal c2)
        else some (digitVal c1)
      else none

/-- Greedy `\d{1,2}` followed by a continuation, with regex backtracking: two
digits are preferred, one digit is retried when the continuation fails. -/
def digits12Bt (k : Nat → List Char → Option Nat) : List Char → Option Nat
  | [] => none
  | [c1] => if c1.isDigit then k (digitVal c1) [] else none
  | c1 :: c2 :: cs =>
      if c1.isDigit then
        if c2.isDigit then
          match k (10 * digitVal c1 + digitVal c2) cs with
          | some v => some v
          | none => k (digitVal c1) (c2 :: cs)
        else k (digitVal c1) (c2 :: cs)
      else none

/-- Exactly `\d{4}` (with nothing after it): value of four digit characters. -/
def take4Digits : List Char → Option Nat
  | c1 :: c2 :: c3 :: c4 :: _ =>
      if c1.isDigit && c2.isDigit && c3.isDigit && c4.isDigit then
        some (1000 * digitVal c1 + 100 * digitVal c2 + 10 * digitVal c3 + digitVal c4)
      else none
  | _ => none

/-- Match of `(?:I am|I\x27m)\s+(\d{1,2})` at one position. -/
def p1At (cs : List Char) : Option Nat :=
  let afterLit :=
    match matchLitCI "i am".data cs with
    | some r => some r
    | none => matchLitCI "i\x27m".data cs
  match afterLit with
  | some (c :: r) =>
      if isSpaceChar c then take2Digits ((c :: r).dropWhile isSpaceChar) else none
  | _ => none

/-- Match of `age\s*:?\s*(\d{1,2})` at one position. -/
def p2At (cs : List Char) : Option Nat :=
  match matchLitCI "age".data cs with
  | some r =>
      let r1 := r.dropWhile isSpaceChar
      let r2 :=
        match r1 with
        | c :: rest => if c = ':' then rest else r1
        | [] => r1
      take2Digits (r2.dropWhile isSpaceChar)
  | none => none

/-- Match of `(\d{1,2})\s*(?:years|yrs)\s*old` at one position. -/
def p3At (cs : List Char) : Option Nat :=
  digits12Bt
    (fun v r =>
      let r1 := r.dropWhile isSpaceChar
      let r2 :=
        match matchLitCI "years".data r1 with
        | some x => some x
        | none => matchLitCI "yrs".data r1
      match r2 with
      | some x =>
          match matchLitCI "old".data (x.dropWhile isSpaceChar) with
          | some _ => some v
          | none => none
      | none => none)
    cs

/-- Match of `(\d{1,2})\s*y\.?o` at one position. -/
def p4At (cs : List Char) : Option Nat :=
  digits12Bt
    (fun v r =>
      match r.dropWhile isSpaceChar with
      | c :: rest =>
          if c.toLower = 'y' then
            match rest with
            | d :: rest2 =>
                if d = '.' then
                  match rest2 with
                  | e :: _ => if e.toLower = 'o' then some v else none
                  | [] => none
                else if d.toLower = 'o' then some v else none
            | [] => none
          else none
      | [] => none)
    cs

/-- Match of `born\s+in\s+(\d{4})` at one position. -/
def y1At (cs : List Char) : Option Nat :=
  match matchLitCI "born".data cs with
  | some (c :: r) =>
      if isSpaceChar c then
        match matchLitCI "in".data ((c :: r).dropWhile isSpaceChar) with
        | some (d :: r2) =>
            if isSpaceChar d then take4Digits ((d :: r2).dropWhile isSpaceChar) else none
        | _ => none
      else none
  | _ => none

/-- Match of `b\.\s*(\d{4})` at one position. -/
def y2At (cs : List Char) : Option Nat :=
  match matchLitCI "b.".data cs with
  | some r => take4Digits (r.dropWhile isSpaceChar)
  | none => none

/-- Match of `est\.\s*(\d{4})` at one position. -/
def y3At (cs : List Char) : Option Nat :=
  match matchLitCI "est.".data cs with
  | some r => take4Digits (r.dropWhile isSpaceChar)
  | none => none

/-- Leftmost match of a position matcher: `re.findall(...)[0]`. -/
def scanFirst (f : List Char → Option Nat) : List Char → Option Nat
  | [] => none
  | c :: cs =>
      match f (c :: cs) with
      | some v => some v
      | none => scanFirst f cs

/-- One step of the direct-age loop: the first match of one pattern, kept only
when it passes the plausibility bound `13 ≤ age ≤ 100`. -/
def tryDirect (pat : List Char → Option Nat) (cs : List Char) : Option Nat :=
  match scanFirst pat cs with
  | some a => if 13 ≤ a ∧ a ≤ 100 then some a else none
  | none => none

/-- The direct-age pattern loop: the four patterns in source order, each
contributing only its first match, the first plausible value winning. -/
def directAgeChain (cs : List Char) : Option Nat :=
  match tryDirect p1At cs with
  | some a => some a
  | none =>
    match tryDirect p2At cs with
    | some a => some a
    | none =>
      match tryDirect p3At cs with
      | some a => some a
      | none => tryDirect p4At cs

/-- One step of the birth-year loop: first match of one year pattern, kept when
`1920 <= year <= current_year - 13`, contributing `current_year - year`. -/
def tryYear (current_year : Nat) (pat : List Char → Option Nat) (cs : List Char) : Option Nat :=
  match scanFirst pat cs with
  | some y => if 1920 ≤ y ∧ y + 13 ≤ current_year then some (current_year - y) else none
  | none => none

/-- The birth-year pattern loop in source order. -/
def yearAgeChain (current_year : Nat) (cs : List Char) : Option Nat :=
  match tryYear current_year y1At cs with
  | some a => some a
  | none =>
    match tryYear current_year y2At cs with
    | some a => some a
    | none => tryYear current_year y3At cs

/-- The age bucket chain of the source (first matching bound wins). -/
def age_group_of (age : Nat) : String :=
  if age < 18 then "Under 18"
  else if age < 25 then "18-24"
  else if age < 30 then "25-29"
  else if age < 35 then "25-34"
  else if age < 45 then "35-44"
  else "45+"

/-- `text.split(chr(10))` through the character list. -/
def splitLinesGo : List Char → List Char → List String
  | acc, [] => [String.mk acc.reverse]
  | acc, c :: cs =>
      if c = '\n' then String.mk acc.reverse :: splitLinesGo [] cs
      else splitLinesGo (c :: acc) cs

/-- Keyword-based life-stage inference over the lines of the text. -/
def lifeStage : List String → Option String
  | [] => none
  | line :: rest =>
      let low := toLowerStr line
      if containsStr low "college" || containsStr low "university" then some "18-24"
      else if containsStr low "career" || containsStr low "job" then some "25-29"
      else lifeStage rest

/-- `extract_age`: direct age mentions, then birth years, then life-stage
keywords, then the default group. -/
def extract_age (current_year : Nat) (text : String) : Option Nat × Option String :=
  if strEmpty text then (none, none)
  else
    match directAgeChain text.data with
    | some a => (some a, some (age_group_of a))
    | none =>
      match yearAgeChain current_year text.data with
      | some a => (some a, some (age_group_of a))
      | none =>
        match lifeStage (splitLinesGo [] text.data) with
        | some g => (none, some g)
        | none => (none, some "25-29")

/-! ## Niche classification (`identify_niche`, lines 731-808) -/

/-- Increment of one key of a frequency table (Python
`d[k] = d.get(k, 0) + 1`), keys kept in insertion order. -/
def assocBump (k : String) : List (String × Nat) → List (String × Nat)
  | [] => [(k, 1)]
  | (k2, n) :: rest => if k2 = k then (k2, n + 1) :: rest else (k2, n) :: assocBump k rest

/-- `hashtag_counts`: frequency table of the lowercased hashtags of all
captions, keys in first-appearance order. -/
def hashtag_counts (posts : List Post) : List (String × Nat) :=
  ((posts.map fun p => extract_hashtags p.caption).flatten).foldl
    (fun m tag => assocBump (toLowerStr tag) m) []

/-- The 20 niche categories with their keyword lists, in source order. -/
def niche_categories : List (String × List String) :=
  [("Fashion & Style", ["fashion", "style", "outfit", "clothing", "model", "dress", "accessories", "fashionista"]),
   ("Beauty", ["makeup", "skincare", "beauty", "cosmetics", "haircare", "nails", "glam", "makeupartist"]),
   ("Lifestyle", ["lifestyle", "life", "daily", "routine", "inspiration", "motivation"]),
   ("Fitness", ["fitness", "workout", "gym", "exercise", "health", "training", "muscle", "fit"]),
   ("Health", ["health", "wellness", "nutrition", "diet", "healthy", "mindfulness", "meditation"]),
   ("Food", ["food", "cooking", "recipe", "chef", "foodie", "cuisine", "baking", "delicious", "yummy"]),
   ("Travel", ["travel", "wanderlust", "adventure", "explore", "tourism", "vacation", "trip", "journey", "destination"]),
   ("Technology", ["technology", "tech", "gadget", "device", "software", "app", "smartphone", "computer"]),
   ("Gaming", ["gaming", "gamer", "videogames", "game", "esports", "playstation", "xbox", "nintendo"]),
   ("Entertainment", ["entertainment", "movie", "film", "tv", "television", "cinema", "streaming"]),
   ("Comedy", ["comedy", "funny", "humor", "laugh", "joke", "prank", "skit"]),
   ("Education", ["education", "learning", "school", "knowledge", "teach", "study", "student", "lesson"]),
   ("Business", ["business", "entrepreneur", "marketing", "startup", "success", "money"]),
   ("Finance", ["finance", "investing", "stocks", "cryptocurrency", "money", "financial", "wealth"]),
   ("Art & Design", ["art", "artist", "drawing", "painting", "creative", "design", "illustration"]),
   ("Music", ["music", "musician", "song", "singer", "artist", "band", "concert"]),
   ("Dance", ["dance", "dancer", "choreography", "ballet", "hiphop"]),
   ("Sports", ["sports", "athlete", "basketball", "football", "soccer", "baseball", "tennis"]),
   ("Pets & Animals", ["pets", "dog", "cat", "animal", "puppy", "kitten", "wildlife"]),
   ("Family & Parenting", ["family", "parenting", "mom", "dad", "children", "kids", "baby"])]

/-- `any(keyword in tag for keyword in keywords)`: substring match, not
whole-word. -/
def kwMatch (keywords : List String) (tag : String) : Bool :=
  keywords.any fun k => containsStr tag k

/-- Addition at one existing key of the score table (Python
`niche_scores[category] += count`). -/
def assocAdd (k : String) (v : Nat) : List (String × Nat) → List (String × Nat)
  | [] => []
  | (k2, n) :: rest => if k2 = k then (k2, n + v) :: rest else (k2, n) :: assocAdd k v rest

/-- The inner category loop of the scorer: adds one hashtag's count to every
category with a keyword-substring match. -/
def bumpCat (tag : String) (count : Nat) (scores : List (String × Nat)) : List (String × Nat) :=
  niche_categories.foldl
    (fun sc ck => if kwMatch ck.2 tag then assocAdd ck.1 count sc else sc) scores

/-- The score table initialised to zero for every category. -/
def init_scores : List (String × Nat) := niche_categories.map fun ck => (ck.1, 0)

/-- `niche_scores`, shaped like the source: a double loop over the hashtag
table and the categories. -/
def niche_scores (posts : List Post) : List (String × Nat) :=
  (hashtag_counts posts).foldl (fun sc tc => bumpCat tc.1 tc.2 sc) init_scores

/-- The scores as worded by the specification: each category's score is the sum
of the counts of the hashtags it keyword-matches by substring. -/
def niche_scores_spec (posts : List Post) : List (String × Nat) :=
  niche_categories.map fun ck =>
    (ck.1, ((hashtag_counts posts).map fun tc => if kwMatch ck.2 tc.1 then tc.2 else 0).sum)

/-- `total_score = sum(niche_scores.values()) or 1`. -/
def totalScore (posts : List Post) : Nat :=
  let s := ((niche_scores posts).map fun cs => cs.2).sum
  if s = 0 then 1 else s

/-- The distribution before the significance filter:
`round(score / total_score * 100, 1)` for every positively scored category. -/
def distributionFull (posts : List Post) : List (String × ℚ) :=
  ((niche_scores posts).filter fun cs => 0 < cs.2).map fun cs =>
    (cs.1, pyRound1 ((cs.2 : ℚ) / (totalScore posts : ℚ) * 100))

/-- The niche analysis record returned by `identify_niche`. -/
structure NicheAnalysis where
  primary : Option String
  secondary : List String
  distribution : List (String × ℚ)
  confidence_scores : List (String × Nat)
deriving DecidableEq

/-- The categories sorted by score, descending, stable. -/
def sorted_niches (posts : List Post) : List (String × Nat) :=
  stableSort (fun a b => b.2 ≤ a.2) (niche_scores posts)

/-- `identify_niche`: primary, secondary, significant distribution (entries
below 2 percent dropped) and confidence scores. -/
def identify_niche (posts : List Post) : NicheAnalysis :=
  let sorted := sorted_niches posts
  let primary :=
    match sorted with
    | cs :: _ => if 0 < cs.2 then some cs.1 else none
    | [] => none
  let secondary := (((sorted.drop 1).take 3).filter fun cs => 0 < cs.2).map fun cs => cs.1
  let max_score :=
    match sorted with
    | cs :: _ => if 0 < cs.2 then cs.2 else 1
    | [] => 1
  { primary := primary
    secondary := secondary
    distribution := (distributionFull posts).filter fun kv => 2 ≤ kv.2
    confidence_scores :=
      niche_categories.map fun ck =>
        (ck.1, min 100 ((((niche_scores posts).lookup ck.1).getD 0) * 100 / max_score)) }

/-- Count of one lowercased hashtag over all posts. -/
def countOfTag (posts : List Post) (tag : String) : Nat :=
  ((hashtag_counts posts).lookup tag).getD 0

/-- Score of one category. -/
def scoreOfCat (posts : List Post) (cat : String) : Nat :=
  ((niche_scores posts).lookup cat).getD 0

/-! ## Posting frequency (`analyze_post_info`, lines 1372-1477)

`datetime.fromtimestamp` is modelled in UTC.  The `posting_frequency`
sub-record starts from the explicit defaults of `analyze_user_info` (lines
1294-1300) and is rewritten by `analyze_post_info`.  In the source, when the
post list is nonempty but no post carries a `taken_at` timestamp, the local
variables `overall_frequency`, `days_since_last_post` and
`consistent_schedule` are never assigned and the final `update` call raises
`UnboundLocalError`; this is modelled by the `Except.error` branch. -/

structure PostingFrequency where
  overall_frequency : Option String
  days_since_last_post : Option Int
  consistent_schedule : Option Bool
  best_days : List String
  best_times : List String
deriving DecidableEq

/-- The defaults of the `posting_frequency` block of `analyze_user_info`. -/
def postingFrequencyInit : PostingFrequency := ⟨none, none, none, [], []⟩

/-- Generic frequency-table increment (Python `d[k] = d.get(k, 0) + 1`). -/
def bumpKey {α : Type} [DecidableEq α] (k : α) : List (α × Nat) → List (α × Nat)
  | [] => [(k, 1)]
  | (k2, n) :: rest => if k2 = k then (k2, n + 1) :: rest else (k2, n) :: bumpKey k rest

/-- `%A` day name of a unix timestamp (UTC). -/
def dayName (t : Int) : String :=
  ["Sunday", "Monday", "Tuesday", "Wednesday", "Thursday", "Friday",
    "Saturday"].getD ((Int.fdiv t 86400 + 4).emod 7).toNat "Sunday"

/-- Hour of day of a unix timestamp (UTC). -/
def hourOf (t : Int) : Nat := (t.emod 86400).toNat / 3600

/-- `post_days`: day-name frequency table in insertion order. -/
def dayCounts (ts : List Int) : List (String × Nat) :=
  ts.foldl (fun m t => bumpKey (dayName t) m) []

/-- `post_hours`: hour frequency table in insertion order. -/
def hourCounts (ts : List Int) : List (Nat × Nat) :=
  ts.foldl (fun m t => bumpKey (hourOf t) m) []

/-- The five fixed hour ranges of the source (`time_ranges`). -/
def time_ranges : List (String × List Nat) :=
  [("Early Morning (5am-8am)", [5, 6, 7, 8]),
   ("Morning (8am-12pm)", [9, 10, 11, 12]),
   ("Afternoon (12pm-5pm)", [13, 14, 15, 16, 17]),
   ("Evening (5pm-10pm)", [18, 19, 20, 21, 22]),
   ("Night (10pm-5am)", [23, 0, 1, 2, 3, 4])]

/-- `range_counts`: posts per hour range (each hour's count added to every
range containing the hour). -/
def range_counts (hours : List (Nat × Nat)) : List (String × Nat) :=
  time_ranges.map fun r =>
    (r.1, (hours.map fun hc => if hc.1 ∈ r.2 then hc.2 else 0).sum)

/-- The posting-frequency part of `analyze_post_info`. -/
def analyze_post_info_pf (now : Int) (posts : List Post) (pf : PostingFrequency) :
    Except String PostingFrequency :=
  if posts.isEmpty then .ok pf
  else
    let ts := posts.filterMap fun p => p.taken_at
    let post_days := dayCounts ts
    let post_hours := hourCounts ts
    match stableSort (fun a b => decide (b ≤ a)) ts with
    | [] => .error "UnboundLocalError: local variable overall_frequency referenced before assignment"
    | last :: rest =>
      let days_since := Int.fdiv (now - last) 86400
      let freqCons : Option String × Option Bool :=
        if rest.isEmpty then (some "N/A", none)
        else
          let diffs := ((last :: rest).zip rest).map fun ab =>
            ((ab.1 - ab.2 : ℤ) : ℚ) / (24 * 3600)
          let avg := diffs.sum / (diffs.length : ℚ)
          let freq :=
            if avg < 1 then "Multiple times daily"
            else if avg < 2 then "Daily"
            else if avg < 7 then "Weekly"
            else if avg < 14 then "Bi-weekly"
            else if avg < 31 then "Monthly"
            else "Infrequent"
          (some freq, some (decide (∀ d ∈ diffs, |d - avg| ≤ 2)))
      let best_days := ((stableSort (fun a b => b.2 ≤ a.2) post_days).take 3).map fun kv => kv.1
      let best_times :=
        (((stableSort (fun a b => b.2 ≤ a.2) (range_counts post_hours)).take 2).filter
          fun kv => 0 < kv.2).map fun kv => kv.1
      .ok
        { overall_frequency := freqCons.1
          days_since_last_post := some days_since
          consistent_schedule := freqCons.2
          best_days := best_days
          best_times := best_times }

/-! ## Brand detection (`identify_collaborations`, lines 372-655)

The `mentions_count`, `hashtags_count` and `brand_sources` dictionaries are
association lists in insertion order; the "now" of the 300-day recency window
is passed in as the cutoff timestamp. -/

structure BrandFlags where
  mention : Bool
  hashtag : Bool
deriving DecidableEq

structure TokStat where
  count : Nat
  is_recent : Bool
deriving DecidableEq

structure ScanState where
  mentionsCount : List (String × TokStat)
  hashtagsCount : List (String × TokStat)
  brandSources : List (String × BrandFlags)
deriving DecidableEq

/-- The fixed stop-word list of the mention filter (line 419). -/
def mentionStopWords : List String :=
  ["the", "and", "for", "from", "with", "this", "that", "have", "has", "her", "his", "our",
   "my", "your", "their", "its", "as", "at", "by", "to", "in", "on", "of", "or", "if"]

/-- A mention token survives the noise filter: at least 3 characters and not a
stop word (case-insensitive). -/
def validMention (m : String) : Bool :=
  decide (3 ≤ m.length) && !(mentionStopWords.contains (toLowerStr m))

/-- The mention tokens of a caption after the noise filter. -/
def filteredMentions (caption : String) : List String :=
  (rawMentions caption).filter validMention

/-- Dictionary assignment: overwrite the first entry with the key, else append
(Python `d[k] = v`). -/
def setKey {β : Type} (k : String) (v : β) : List (String × β) → List (String × β)
  | [] => [(k, v)]
  | (k2, w) :: rest => if k2 = k then (k2, v) :: rest else (k2, w) :: setKey k v rest

/-- Processing of one filtered mention occurrence (lines 422-430): create or
bump the count entry, set the recency flag, and register the mention source
(overwriting any existing flags on first sight, as the source does). -/
def processMention (isRec : Bool) (st : ScanState) (m : String) : ScanState :=
  match st.mentionsCount.lookup m with
  | none =>
      { mentionsCount := setKey m ⟨1, isRec⟩ st.mentionsCount
        hashtagsCount := st.hashtagsCount
        brandSources := setKey m ⟨true, false⟩ st.brandSources }
  | some s =>
      { mentionsCount := setKey m ⟨s.count + 1, s.is_recent || isRec⟩ st.mentionsCount
        hashtagsCount := st.hashtagsCount
        brandSources :=
          match st.brandSources.lookup m with
          | none => st.brandSources
          | some f => setKey m ⟨true, f.hashtag⟩ st.brandSources }

/-- Processing of one hashtag occurrence (lines 434-444): the hashtag source
flag is only registered on the first sight of the token. -/
def processHashtag (isRec : Bool) (st : ScanState) (h : String) : ScanState :=
  match st.hashtagsCount.lookup h with
  | none =>
      { mentionsCount := st.mentionsCount
        hashtagsCount := setKey h ⟨1, isRec⟩ st.hashtagsCount
        brandSources :=
          match st.brandSources.lookup h with
          | none => setKey h ⟨false, true⟩ st.brandSources
          | some f => setKey h ⟨f.mention, true⟩ st.brandSources }
  | some s =>
      { mentionsCount := st.mentionsCount
        hashtagsCount := setKey h ⟨s.count + 1, s.is_recent || isRec⟩ st.hashtagsCount
        brandSources := st.brandSources }

/-- The first pass of `identify_collaborations`: mentions then hashtags of each
caption, post by post. -/
def scanPosts (cutoff : Int) (posts : List Post) : ScanState :=
  posts.foldl
    (fun st p =>
      let isRec := isRecentTs cutoff p.taken_at
      if strEmpty p.caption then st
      else
        let st1 := (filteredMentions p.caption).foldl (processMention isRec) st
        (extract_hashtags p.caption).foldl (processHashtag isRec) st1)
    ⟨[], [], []⟩

/-- Word-boundary test of the regex `\b` after the final pattern character. -/
def boundaryAfter (lastc : Char) : List Char → Bool
  | [] => isWordChar lastc
  | c :: _ => isWordChar lastc != isWordChar c

/-- Search of a case-insensitive literal pattern followed by `\b`. -/
def searchWBGo (pat : List Char) (lastc : Char) : List Char → Bool
  | [] => false
  | c :: cs =>
      (match matchLitCI pat (c :: cs) with
       | some rest => boundaryAfter lastc rest
       | none => false) ||
        searchWBGo pat lastc cs

/-- `re.search(pat + boundary, text, IGNORECASE)` for a literal `pat`
(lowercase). -/
def searchWB (pat : List Char) (cs : List Char) : Bool :=
  match pat.getLast? with
  | none => true
  | some lastc => searchWBGo pat lastc cs

/-- `re.search(pat, text, IGNORECASE)` for a literal `pat` (lowercase), no
boundary. -/
def searchPat (pat : List Char) : List Char → Bool
  | [] => (matchLitCI pat []).isSome
  | c :: cs => (matchLitCI pat (c :: cs)).isSome || searchPat pat cs

/-- Whether a caption contains the brand as `@brand\b` or `#brand\b`
(case-insensitive), the test of the engagement pass (lines 464-471). -/
def captionHasBrandWB (brand caption : String) : Bool :=
  searchWB ('@' :: (toLowerStr brand).data) caption.data ||
    searchWB ('#' :: (toLowerStr brand).data) caption.data

/-- Keep-first deduplication. -/
def dedupFirstGo (seen : List String) : List String → List String
  | [] => []
  | x :: xs =>
      if seen.contains x then dedupFirstGo seen xs
      else x :: dedupFirstGo (x :: seen) xs

/-- `list(set(mentions + hashtags))`, realised in first-appearance order. -/
def all_brands (st : ScanState) : List String :=
  dedupFirstGo [] ((st.mentionsCount.map fun kv => kv.1) ++ (st.hashtagsCount.map fun kv => kv.1))

structure EngRec where
  engagement : Nat
  likes : Nat
  comments : Nat
  brands : List String
deriving DecidableEq

/-- `branded_engagement`: engagement of every post whose caption carries some
known brand token with a word boundary. -/
def branded_engagement (st : ScanState) (posts : List Post) : List EngRec :=
  posts.filterMap fun p =>
    let bs := (all_brands st).filter fun b => captionHasBrandWB b p.caption
    if bs.isEmpty then none
    else some ⟨p.like_count + p.comment_count, p.like_count, p.comment_count, bs⟩

/-- Words of the first ad-indicator pattern. -/
def adWords : List String := ["ad", "sponsored", "paid", "partner", "collab", "ambassador"]

/-- Hashtag fragments of the remaining ad-indicator patterns. -/
def adHashtagFragments : List String := ["ad", "sponsored", "paidpartner", "sponsored_by", "partnership"]

/-- Whether a caption matches one of the ad/sponsorship indicators. -/
def adMatch (caption : String) : Bool :=
  (wordRuns caption).any (fun r => adWords.contains (toLowerStr r)) ||
    adHashtagFragments.any fun w => searchWB ('#' :: w.data) caption.data

/-- `types`: `["ad"]` when some post carrying the brand also carries an ad
indicator, else `["organic"]` (`list(set(types)) if types else ["organic"]`). -/
def typesFor (containsBrand : String → Bool) (posts : List Post) : List String :=
  if posts.any (fun p => containsBrand p.caption && adMatch p.caption) then ["ad"]
  else ["organic"]

/-- Average engagement over the branded posts carrying the given brand, `0`
when there is none. -/
def avgEngagement (brand : String) (bes : List EngRec) : ℚ :=
  let sel := bes.filter fun e => e.brands.contains brand
  if sel.isEmpty then 0
  else ((sel.map fun e => (e.engagement : ℚ)).sum) / (sel.length : ℚ)

/-- `' & '.join(source_type)`. -/
def joinAmp : List String → String
  | [] => ""
  | [x] => x
  | x :: xs => x ++ " & " ++ joinAmp xs

/-- The source tag string of a brand. -/
def sourceStr (f : BrandFlags) : String :=
  joinAmp ((if f.mention then ["mention"] else []) ++ (if f.hashtag then ["hashtag"] else []))

structure CollabRec where
  name : String
  count : Nat
  types : List String
  engagement : ℤ
  is_recent : Bool
  source : String
deriving DecidableEq

/-- The collaboration entries produced by the mention pass (count at least 2),
in table order. -/
def mentionEntries (cutoff : Int) (posts : List Post) : List CollabRec :=
  let st := scanPosts cutoff posts
  let bes := branded_engagement st posts
  (st.mentionsCount.filter fun kv => 2 ≤ kv.2.count).map fun kv =>
    { name := kv.1
      count := kv.2.count
      types := typesFor
        (fun cap => searchPat ('@' :: (toLowerStr kv.1).data) cap.data ||
          searchPat ('#' :: (toLowerStr kv.1).data) cap.data) posts
      engagement := pyRound (avgEngagement kv.1 bes)
      is_recent := kv.2.is_recent
      source := sourceStr ((st.brandSources.lookup kv.1).getD ⟨false, false⟩) }

/-- The collaboration entries produced by the hashtag pass: tokens not already
captured as mentions, count at least 2. -/
def hashtagEntries (cutoff : Int) (posts : List Post) : List CollabRec :=
  let st := scanPosts cutoff posts
  let bes := branded_engagement st posts
  ((st.hashtagsCount.filter fun kv =>
      (st.mentionsCount.lookup kv.1).isNone && 2 ≤ kv.2.count)).map fun kv =>
    { name := kv.1
      count := kv.2.count
      types := typesFor (fun cap => searchPat ('#' :: (toLowerStr kv.1).data) cap.data) posts
      engagement := pyRound (avgEngagement kv.1 bes)
      is_recent := kv.2.is_recent
      source := sourceStr ((st.brandSources.lookup kv.1).getD ⟨false, false⟩) }

/-- Sort comparison of `all_collabs.sort`: ascending in the key
`(-1 if is_recent else 0, -engagement)`. -/
def collabLe (a b : CollabRec) : Bool :=
  let ka : ℤ × ℤ := (if a.is_recent then -1 else 0, -a.engagement)
  let kb : ℤ × ℤ := (if b.is_recent then -1 else 0, -b.engagement)
  decide (ka.1 < kb.1) || (decide (ka.1 = kb.1) && decide (ka.2 ≤ kb.2))

/-- `top_collaborations`: all surviving brand entries, mention pass first, then
sorted by recency and engagement (stable). -/
def top_collaborations (cutoff : Int) (posts : List Post) : List CollabRec :=
  stableSort collabLe (mentionEntries cutoff posts ++ hashtagEntries cutoff posts)

/-- Keep-first deduplication by name of `(name, source)` pairs. -/
def dedupByNameGo (seen : List String) : List (String × String) → List (String × String)
  | [] => []
  | e :: rest =>
      if seen.contains e.1 then dedupByNameGo seen rest
      else e :: dedupByNameGo (e.1 :: seen) rest

/-- The raw `recent_brands` pairs: recent mention brands, then recent hashtag
brands (count at least 2 each, hashtag pass skipping mention tokens). -/
def recentPairs (cutoff : Int) (posts : List Post) : List (String × String) :=
  let st := scanPosts cutoff posts
  ((st.mentionsCount.filter fun kv => 2 ≤ kv.2.count && kv.2.is_recent).map
      fun kv => (kv.1, "mention")) ++
    ((st.hashtagsCount.filter fun kv =>
        (st.mentionsCount.lookup kv.1).isNone && 2 ≤ kv.2.count && kv.2.is_recent).map
      fun kv => (kv.1, "hashtag"))

/-- The raw `previous_brands` pairs: all surviving brands with their source. -/
def previousPairs (cutoff : Int) (posts : List Post) : List (String × String) :=
  let st := scanPosts cutoff posts
  ((st.mentionsCount.filter fun kv => 2 ≤ kv.2.count).map fun kv => (kv.1, "mention")) ++
    ((st.hashtagsCount.filter fun kv =>
        (st.mentionsCount.lookup kv.1).isNone && 2 ≤ kv.2.count).map
      fun kv => (kv.1, "hashtag"))

/-- `recent_brands_with_source`: first occurrence per name. -/
def recent_brands_with_source (cutoff : Int) (posts : List Post) : List (String × String) :=
  dedupByNameGo [] (recentPairs cutoff posts)

/-- `previous_brands_with_source`: first occurrence per name. -/
def previous_brands_with_source (cutoff : Int) (posts : List Post) : List (String × String) :=
  dedupByNameGo [] (previousPairs cutoff posts)

/-- `recent_brands` (backward-compatibility name list). -/
def recent_brands (cutoff : Int) (posts : List Post) : List String :=
  (recent_brands_with_source cutoff posts).map fun e => e.1

/-- `previous_brands` (backward-compatibility name list). -/
def previous_brands (cutoff : Int) (posts : List Post) : List String :=
  (previous_brands_with_source cutoff posts).map fun e => e.1

/-- Invariant of the scan state: every mention key passed the noise filter, and
a registered mention source flag always has a mention count entry. -/
def ScanInv (st : ScanState) : Prop :=
  (∀ kv ∈ st.mentionsCount, validMention kv.1 = true) ∧
    (∀ (k : String) (f : BrandFlags), st.brandSources.lookup k = some f →
      f.mention = true → (st.mentionsCount.lookup k).isSome = true)

/-! ## Geo resolution (`location_processor.py`, lines 7-163)

The reference数 database is read-only: coordinates are exact rationals, the
Haversine distance is a real number.  The search pipeline is defined once,
generically over a distance function into a linear order, and instantiated
with the Haversine distance; a landmark/subdivision record models a missing
optional key (`city`, `county`, `landmarks`, a subdivision-type bucket) as
`none`/`[]`, which the source treats identically to an absent key. -/

structure Bounds where
  north : ℚ
  south : ℚ
  east : ℚ
  west : ℚ

structure CityCoord where
  lat : ℚ
  lng : ℚ

structure LandmarkData where
  lat : ℚ
  lng : ℚ
  city : Option String
  county : Option String

structure Subdivision where
  name : String
  bounds : Bounds
  major_cities : List (String × CityCoord)
  landmarks : List (String × LandmarkData)

structure Country where
  name : String
  bounds : Bounds
  states : List (String × Subdivision)
  provinces : List (String × Subdivision)
  regions : List (String × Subdivision)
  emirates : List (String × Subdivision)
  countries : List (String × Subdivision)
  governorates : List (String × Subdivision)

/-- `is_within_bounds`. -/
def is_within_bounds (lat lng : ℚ) (b : Bounds) : Bool :=
  decide (b.south ≤ lat) && decide (lat ≤ b.north) &&
    decide (b.west ≤ lng) && decide (lng ≤ b.east)

/-- `find_country`: first country of the database whose box contains the
point, in declared order. -/
def find_country (lat lng : ℚ) : List (String × Country) → Option (String × Country)
  | [] => none
  | cc :: rest =>
      if is_within_bounds lat lng cc.2.bounds then some cc else find_country lat lng rest

/-- One subdivision bucket of `find_subdivision`. -/
def find_sub_in (lat lng : ℚ) : List (String × Subdivision) → Option (String × Subdivision)
  | [] => none
  | sc :: rest =>
      if is_within_bounds lat lng sc.2.bounds then some sc else find_sub_in lat lng rest

/-- `find_subdivision`: the six fixed subdivision-type buckets in priority
order (the returned subdivision type of the source is only used to pick the
`state` field in both of its branches and is dropped here). -/
def find_subdivision (lat lng : ℚ) (c : Country) : Option (String × Subdivision) :=
  match find_sub_in lat lng c.states with
  | some r => some r
  | none =>
    match find_sub_in lat lng c.provinces with
    | some r => some r
    | none =>
      match find_sub_in lat lng c.regions with
      | some r => some r
      | none =>
        match find_sub_in lat lng c.emirates with
        | some r => some r
        | none =>
          match find_sub_in lat lng c.countries with
          | some r => some r
          | none => find_sub_in lat lng c.governorates

/-- The loop body of `find_city`: keep the closest city seen so far (strict
improvement, first minimum kept), no distance cap yet. -/
def cityStep {α : Type} [LinearOrder α] (d : ℚ → ℚ → α) (best : Option (String × α))
    (nc : String × CityCoord) : Option (String × α) :=
  let dist := d nc.2.lat nc.2.lng
  match best with
  | none => some (nc.1, dist)
  | some b => if dist < b.2 then some (nc.1, dist) else some b

/-- `find_city`, generic in the distance: closest-city fold, then the distance
cap. -/
def find_city {α : Type} [LinearOrder α] (d : ℚ → ℚ → α) (maxd : α) (s : Subdivision) :
    Option String :=
  match s.major_cities.foldl (cityStep d) none with
  | some b => if b.2 ≤ maxd then some b.1 else none
  | none => none

/-- The loop body of `find_landmark`: keep the first strict minimum among
landmarks within the cap. -/
def lmStep {α : Type} [LinearOrder α] (d : ℚ → ℚ → α) (maxd : α)
    (best : Option (String × LandmarkData × α)) (nl : String × LandmarkData) :
    Option (String × LandmarkData × α) :=
  let dist := d nl.2.lat nl.2.lng
  match best with
  | none => if dist ≤ maxd then some (nl.1, nl.2, dist) else none
  | some b => if dist < b.2.2 ∧ dist ≤ maxd then some (nl.1, nl.2, dist) else some b

/-- `find_landmark`, generic in the distance. -/
def find_landmark {α : Type} [LinearOrder α] (d : ℚ → ℚ → α) (maxd : α) (s : Subdivision) :
    Option (String × LandmarkData × α) :=
  s.landmarks.foldl (lmStep d maxd) none

/-- `find_county`: first landmark in declared order carrying a `county` field
and lying within the cap. -/
def find_county_in {α : Type} [LinearOrder α] (d : ℚ → ℚ → α) (one : α) :
    List (String × LandmarkData) → Option String
  | [] => none
  | nl :: rest =>
      match nl.2.county with
      | some cty =>
          if d nl.2.lat nl.2.lng ≤ one then some cty else find_county_in d one rest
      | none => find_county_in d one rest

structure LocRes where
  city : Option String
  state : Option String
  country : Option String
  county : Option String
  landmark : Option String
  postal_code : Option String
  full_location : Option String
  approximate : Bool
deriving DecidableEq

/-- The result skeleton of `determine_location` (all fields unresolved). -/
def blankLocRes : LocRes := ⟨none, none, none, none, none, none, none, true⟩

/-- `", ".join`. -/
def joinComma : List String → String
  | [] => ""
  | [x] => x
  | x :: xs => x ++ ", " ++ joinComma xs

/-- Assembly of `full_location` (lines 145-161): non-empty parts joined with
`", "` in the order landmark, city (if distinct from the landmark), county +
`" County"` (USA only), state, country; the country value itself (possibly
`null`) when no part resolved. -/
def build_full_location (landmark city county state country : Option String)
    (country_code : String) : Option String :=
  let parts :=
    (if tstr landmark then [landmark.getD ""] else []) ++
      (if tstr city && (!(tstr landmark) || decide (landmark ≠ city)) then [city.getD ""]
       else []) ++
      (if tstr county && decide (country_code = "USA") then [(county.getD "") ++ " County"]
       else []) ++
      (if tstr state then [state.getD ""] else []) ++
      (if tstr country then [country.getD ""] else [])
  if parts.isEmpty then country else some (joinComma parts)

/-- The result assembly shared by the source-shaped and specification-shaped
pipelines: landmark/city/county inheritance and overrides (lines 111-143),
then `full_location`.  `lmOpt`, `cityNearest` and `countyNearest` are the
outputs of the three searches (the source only invokes the latter two when
needed; the searches are pure, so passing their values is equivalent). -/
def determine_location_core (country_code : String) (cname : String)
    (subOpt : Option Subdivision) (lmOpt : Option (String × LandmarkData))
    (cityNearest countyNearest : Option String) : LocRes :=
  let rcountry : Option String := some cname
  match subOpt with
  | none =>
      { blankLocRes with
        country := rcountry
        full_location := build_full_location none none none none rcountry country_code }
  | some sub =>
      let rstate : Option String := some sub.name
      let lmName : Option String := lmOpt.map fun x => x.1
      let rlandmark : Option String := if tstr lmName then lmName else none
      let city0 : Option String :=
        if tstr lmName then
          match lmOpt with
          | some x => x.2.city
          | none => none
        else none
      let county0 : Option String :=
        if tstr lmName then
          match lmOpt with
          | some x => x.2.county
          | none => none
        else none
      let rcity : Option String :=
        if tstr city0 then city0
        else
          match cityNearest with
          | some cn => if !(strEmpty cn) then some cn else city0
          | none => city0
      let rcounty : Option String :=
        if decide (country_code = "USA") && !(tstr county0) then
          match countyNearest with
          | some cty => if !(strEmpty cty) then some cty else county0
          | none => county0
        else county0
      { city := rcity
        state := rstate
        country := rcountry
        county := rcounty
        landmark := rlandmark
        postal_code := none
        full_location := build_full_location rlandmark rcity rcounty rstate rcountry country_code
        approximate := true }

/-- `determine_location`, shaped like the source, generic in the distance. -/
def determine_location_d {α : Type} [LinearOrder α] (d : ℚ → ℚ → α) (five fifty one : α)
    (lat lng : ℚ) (gps_db : List (String × Country)) : LocRes :=
  match find_country lat lng gps_db with
  | none => blankLocRes
  | some cc =>
      match find_subdivision lat lng cc.2 with
      | none => determine_location_core cc.1 cc.2.name none none none none
      | some sc =>
          determine_location_core cc.1 cc.2.name (some sc.2)
            ((find_landmark d five sc.2).map fun x => (x.1, x.2.1))
            (find_city d fifty sc.2)
            (find_county_in d one sc.2.landmarks)

/-- One step of the first-minimum fold. -/
def fmStep {γ : Type} {α : Type} [LinearOrder α] (f : γ → α) (best : Option γ) (x : γ) :
    Option γ :=
  match best with
  | none => some x
  | some b => if f x < f b then some x else some b

/-- First element attaining the minimum of `f` (earliest on ties). -/
def firstMinBy {γ : Type} {α : Type} [LinearOrder α] (f : γ → α) (l : List γ) : Option γ :=
  l.foldl (fmStep f) none

/-- `determine_location` as worded by the specification: country and
subdivision by first containing box in declared/priority order, landmark as
the nearest landmark within `five`, city as the nearest major city within
`fifty` when the landmark supplied none, county from the first landmark within
`one` carrying a county (USA only), assembled by the shared core. -/
def determine_location_spec_d {α : Type} [LinearOrder α] (d : ℚ → ℚ → α) (five fifty one : α)
    (lat lng : ℚ) (gps_db : List (String × Country)) : LocRes :=
  match gps_db.find? (fun cc => is_within_bounds lat lng cc.2.bounds) with
  | none => blankLocRes
  | some cc =>
      match (cc.2.states ++ cc.2.provinces ++ cc.2.regions ++ cc.2.emirates ++ cc.2.countries ++
          cc.2.governorates).find? (fun sc => is_within_bounds lat lng sc.2.bounds) with
      | none => determine_location_core cc.1 cc.2.name none none none none
      | some sc =>
          determine_location_core cc.1 cc.2.name (some sc.2)
            (firstMinBy (fun nl => d nl.2.lat nl.2.lng)
              (sc.2.landmarks.filter fun nl => decide (d nl.2.lat nl.2.lng ≤ five)))
            ((firstMinBy (fun nc => d nc.2.lat nc.2.lng)
              (sc.2.major_cities.filter fun nc => decide (d nc.2.lat nc.2.lng ≤ fifty))).map
              fun nc => nc.1)
            ((sc.2.landmarks.find? fun nl =>
              nl.2.county.isSome && decide (d nl.2.lat nl.2.lng ≤ one)).bind
              fun nl => nl.2.county)

/-- Degrees to radians. -/
noncomputable def radians (x : ℚ) : ℝ := (x : ℝ) * Real.pi / 180

/-- `haversine_distance`: great-circle distance in km, Earth radius 6371. -/
noncomputable def haversine_distance (lat1 lon1 lat2 lon2 : ℚ) : ℝ :=
  let rlat1 := radians lat1
  let rlon1 := radians lon1
  let rlat2 := radians lat2
  let rlon2 := radians lon2
  let dlon := rlon2 - rlon1
  let dlat := rlat2 - rlat1
  let a := Real.sin (dlat / 2) ^ 2 +
    Real.cos rlat1 * Real.cos rlat2 * Real.sin (dlon / 2) ^ 2
  let c := 2 * Real.arcsin (Real.sqrt a)
  c * 6371

/-- `determine_location` over the Haversine distance with the source's caps of
5, 50 and 1 km. -/
noncomputable def determine_location (lat lng : ℚ) (gps_db : List (String × Country)) : LocRes :=
  determine_location_d (fun la ln => haversine_distance lat lng la ln) (5 : ℝ) 50 1 lat lng gps_db

/-- The specification-shaped pipeline over the same distance and caps. -/
noncomputable def determine_location_spec (lat lng : ℚ)
    (gps_db : List (String × Country)) : LocRes :=
  determine_location_spec_d (fun la ln => haversine_distance lat lng la ln) (5 : ℝ) 50 1
    lat lng gps_db

/-! ### The geo-resolution pass over decoded JSON records
(`process_instagram_data`, location_processor lines 166-216).  JSON values as
produced by `json.load`; numbers as ℚ. -/

inductive Json where
  | jnull : Json
  | jbool : Bool → Json
  | jnum : ℚ → Json
  | jstr : String → Json
  | jarr : List Json → Json
  | jobj : List (String × Json) → Json

/-- Python truthiness of a JSON value. -/
def jTruthy : Json → Bool
  | .jnull => false
  | .jbool b => b
  | .jnum q => decide (q ≠ 0)
  | .jstr s => !strEmpty s
  | .jarr l => !l.isEmpty
  | .jobj l => !l.isEmpty

/-- Whether a JSON value equals the string `k` (`in` on a decoded array can
only find a string among the elements). -/
def jIsStr (k : String) : Json → Bool
  | .jstr s => s == k
  | _ => false

/-- Python `k in v` for a string `k`: key membership for objects, element
membership for arrays, substring for strings; `TypeError` (`none`) on the
other types. -/
def jHasKey (k : String) : Json → Option Bool
  | .jobj l => some (l.any fun kv => kv.1 == k)
  | .jarr l => some (l.any (jIsStr k))
  | .jstr s => some (containsStr s k)
  | _ => none

/-- Python `v[k]` for a string `k`: object lookup; `KeyError` on a missing
key and `TypeError` on any non-object collapse to `none` (either aborts the
run). -/
def jGet (k : String) : Json → Option Json
  | .jobj l => (l.find? fun kv => kv.1 == k).map fun kv => kv.2
  | _ => none

/-- The numeric reading `math.radians` accepts: numbers, and booleans as 0/1;
anything else raises. -/
def jNumVal : Json → Option ℚ
  | .jnum q => some q
  | .jbool b => some (if b then 1 else 0)
  | _ => none

/-- An optional string as the JSON value the pass writes into the record. -/
def optStrJ : Option String → Json
  | none => Json.jnull
  | some s => Json.jstr s

/-- The in-place updates of the `home_location` object (lines 192-210):
`city`, `state` and `country` always overwritten, `landmark`, `county` and
`full_location` only when truthy (pre-seeding a missing key with `None`
before assigning is the same as assigning). -/
def patchHL (ld : LocRes) (hl : List (String × Json)) : List (String × Json) :=
  let h1 := setKey "city" (optStrJ ld.city) hl
  let h2 := setKey "state" (optStrJ ld.state) h1
  let h3 := setKey "country" (optStrJ ld.country) h2
  let h4 := if tstr ld.landmark then setKey "landmark" (optStrJ ld.landmark) h3 else h3
  let h5 := if tstr ld.county then setKey "county" (optStrJ ld.county) h4 else h4
  if tstr ld.full_location then setKey "full_location" (optStrJ ld.full_location) h5 else h5

/-- Replacement of the `location_analysis.home_location` leaf of a record
only, leaving every other field untouched (identity when the path does not
lead through objects).  This is what the source's mutation of the alias
`home_location` does to the record that owns it. -/
def setHome (u : Json) (hl2 : Json) : Json :=
  match u with
  | Json.jobj uf =>
      match (uf.find? fun kv => kv.1 == "location_analysis").map (fun kv => kv.2) with
      | some (Json.jobj laf) =>
          Json.jobj (setKey "location_analysis"
            (Json.jobj (setKey "home_location" hl2 laf)) uf)
      | _ => u
  | _ => u

/-- The body of the per-user loop (lines 179-210): locate
`location_analysis.home_location`, skip the record when a guard fails
(falsy `home_location`, no or falsy `coordinates`), otherwise resolve the
coordinates and patch the sub-object in place.  `none` models an uncaught
exception, which aborts the whole run.  `resolve` abstracts
`determine_location lat lng gps_db`. -/
def patchUser (resolve : ℚ → ℚ → LocRes) (user : Json) : Option Json :=
  match jHasKey "location_analysis" user with
  | none => none
  | some false => some user
  | some true =>
      match jGet "location_analysis" user with
      | none => none
      | some la =>
          match jHasKey "home_location" la with
          | none => none
          | some false => some user
          | some true =>
              match jGet "home_location" la with
              | none => none
              | some hl =>
                  if !jTruthy hl then some user
                  else
                    match jHasKey "coordinates" hl with
                    | none => none
                    | some false => some user
                    | some true =>
                        match jGet "coordinates" hl with
                        | none => none
                        | some co =>
                            if !jTruthy co then some user
                            else
                              match (jGet "lat" co).bind jNumVal,
                                  (jGet "lng" co).bind jNumVal with
                              | some lat, some lng =>
                                  match hl with
                                  | Json.jobj hlf =>
                                      some (setHome user
                                        (Json.jobj (patchHL (resolve lat lng) hlf)))
                                  | _ => none
                              | _, _ => none

/-- A record whose `home_location` resolves but is `null`, or whose
`in`-check for a `coordinates` key comes back false. -/
def jNoCoords (u : Json) : Bool :=
  match jGet "location_analysis" u with
  | none => false
  | some la =>
      match jGet "home_location" la with
      | none => false
      | some Json.jnull => true
      | some hl =>
          match jHasKey "coordinates" hl with
          | none => false
          | some b => !b

/-- The loop of `process_instagram_data` over the decoded list (line 179):
each record in order, any exception aborting the run. -/
def processRecords (resolve : ℚ → ℚ → LocRes) : List Json → Option (List Json)
  | [] => some []
  | u :: rest =>
      match patchUser resolve u, processRecords resolve rest with
      | some u2, some rest2 => some (u2 :: rest2)
      | _, _ => none

/-! ## Helper lemmas about the status chain -/

theorem statusLoop_of_active (r : Post → Bool) (posts : List Post) :
    statusLoop r (some "Active") posts = some "Active" := by
  induction posts with
  | nil => rfl
  | cons p ps ih => simpa [statusLoop, List.foldl_cons] using ih

theorem statusLoop_none (r : Post → Bool) (posts : List Post) :
    statusLoop r none posts = if posts.any r then some "Active" else none := by
  induction posts with
  | nil => rfl
  | cons p ps ih =>
    by_cases h : r p
    · simpa [statusLoop, List.foldl_cons, h] using statusLoop_of_active r ps
    · simpa [statusLoop, List.foldl_cons, h, List.any_cons] using ih

/-- C1: for every list of posts, the collaboration `status` equals the strict
first-match rule chain of the specification — `"Active"` exactly when one of
the four rules (paid-partnership flag, status hashtag in a caption, owner
username different from the creator's own username taken from the first post's
embedded user data, coauthor username different from it) fires on some post,
each rule tested over all posts before falling to the next, and `null` when no
rule matches. -/
theorem collabStatus_eq_spec (posts : List Post) :
    collabStatus posts = collabStatusSpec posts ∧
      (collabStatus posts = some "Active" ↔
        (posts.any rule1 ∨ posts.any rule2 ∨
         posts.any (rule3 (getUname posts)) ∨ posts.any (rule4 (getUname posts)))) ∧
      (collabStatus posts = none ↔
        ¬ (posts.any rule1 ∨ posts.any rule2 ∨
           posts.any (rule3 (getUname posts)) ∨ posts.any (rule4 (getUname posts)))) := by
  have heq : collabStatus posts = collabStatusSpec posts := by
    unfold collabStatus collabStatusSpec
    by_cases h1 : posts.any rule1 <;>
      by_cases h2 : posts.any rule2 <;>
        by_cases h3 : posts.any (rule3 (getUname posts)) <;>
          by_cases h4 : posts.any (rule4 (getUname posts)) <;>
            simp [statusLoop_none, h1, h2, h3, h4]
  refine ⟨heq, ?_, ?_⟩ <;> rw [heq] <;> unfold collabStatusSpec <;>
    by_cases h1 : posts.any rule1 <;>
      by_cases h2 : posts.any rule2 <;>
        by_cases h3 : posts.any (rule3 (getUname posts)) <;>
          by_cases h4 : posts.any (rule4 (getUname posts)) <;>
            simp [h1, h2, h3, h4]

theorem detect_gender_eq_spec_aux (cfg : GenderCfg) (bio : String) (captions : List String)
    (fn niche : Option String) :
    detect_gender_from_text cfg bio captions fn niche =
      detect_gender_spec cfg bio captions fn niche := rfl

theorem detect_gender_fst_cases (cfg : GenderCfg) (bio : String) (captions : List String)
    (fn niche : Option String) :
    (detect_gender_from_text cfg bio captions fn niche).1 = "Female" ∨
      (detect_gender_from_text cfg bio captions fn niche).1 = "Male" := by
  rw [detect_gender_eq_spec_aux]
  simp only [detect_gender_spec, genderFallbackSpec]
  split_ifs <;> simp

/-- C4: `detect_gender_from_text` equals the specified composite: weighted sum
`0.5 * name + 0.35 * content + 0.15 * niche` thresholded at `±0.1`, with
`("Female", |score|)` above, `("Male", |score|)` below, and otherwise the
ordered fallback chain (gendered-niche lists, then name lists, then the global
default `("Female", 0.5)`); the name sub-score lies in `{-1, 0, 1}`, the niche
sub-score in `{-0.8, 0, 0.8}`, and the content sub-score (the normalized match
difference, `0` without matches) in `[-1, 1]`. -/
theorem detect_gender_matches_spec (cfg : GenderCfg) (bio : String) (captions : List String)
    (fn niche : Option String) :
    detect_gender_from_text cfg bio captions fn niche =
        detect_gender_spec cfg bio captions fn niche ∧
      nameScoreSpec cfg fn ∈ ([-1, 0, 1] : List ℤ) ∧
      nicheScoreSpec cfg niche ∈ ([-(4/5), 0, 4/5] : List ℚ) ∧
      |contentScoreSpec bio captions| ≤ 1 := by
  refine ⟨detect_gender_eq_spec_aux cfg bio captions fn niche, ?_, ?_, ?_⟩
  · unfold nameScoreSpec
    split_ifs <;> simp
  · unfold nicheScoreSpec
    split_ifs <;> simp
  · simp only [contentScoreSpec]
    set f := femaleMatchCount bio captions with hf
    set m := maleMatchCount bio captions with hm
    split_ifs with h
    · have hpos : (0 : ℚ) < ((f + m : ℕ) : ℚ) := by exact_mod_cast h
      have hf0 : (0 : ℚ) ≤ (f : ℚ) := by positivity
      have hm0 : (0 : ℚ) ≤ (m : ℚ) := by positivity
      have hle : |(f : ℚ) - (m : ℚ)| ≤ ((f + m : ℕ) : ℚ) := by
        push_cast
        rw [abs_le]
        constructor <;> linarith
      rw [abs_div, abs_of_pos hpos, div_le_one hpos]
      exact hle
    · simp

/-- C2 counterexample: with first name `"Chris"`, an empty reference
configuration and a bio of male indicators, the detection chain itself returns
`"Male"` with confidence `0.35`, and the final gender keeps that confidence —
it is not `("Male", 0.85)` as the claim states for every content. -/
theorem chris_override_counterexample :
    genderWithFix ⟨[], [], [], []⟩ "he him man" [] (some "Chris") none = ("Male", 7/20) ∧
      ¬ (genderWithFix ⟨[], [], [], []⟩ "he him man" [] (some "Chris") none =
          ("Male", 17/20)) := by
  have hmm : maleMatchCount "he him man" [] = 3 := by decide
  have hff : femaleMatchCount "he him man" [] = 0 := by decide
  have htr : tstr (some "Chris") = true := by decide
  have hdet : detect_gender_from_text ⟨[], [], [], []⟩ "he him man" [] (some "Chris") none =
      ("Male", 7/20) := by
    simp only [detect_gender_from_text, hmm, hff, htr, anyKeywordIn, List.any_nil,
      List.elem_nil, Option.getD_some]
    norm_num
  have hfix : genderWithFix ⟨[], [], [], []⟩ "he him man" [] (some "Chris") none =
      ("Male", 7/20) := by
    simp [genderWithFix, applyChrisFix, hdet]
  refine ⟨hfix, ?_⟩
  rw [hfix]
  intro hcontra
  have h2 := congrArg Prod.snd hcontra
  norm_num at h2

/-- C2 (amended): for a first name whose lowercase form is `"chris"`, the final
gender is always `"Male"`; the confidence is forced to `0.85` exactly when the
upstream chain classified `"Female"`, and is the chain's own result otherwise. -/
theorem chris_override_amended (cfg : GenderCfg) (bio : String) (captions : List String)
    (s : String) (niche : Option String) (h : toLowerStr s = "chris") :
    (genderWithFix cfg bio captions (some s) niche).1 = "Male" ∧
      ((detect_gender_from_text cfg bio captions (some s) niche).1 = "Female" →
        genderWithFix cfg bio captions (some s) niche = ("Male", 17/20)) ∧
      ((detect_gender_from_text cfg bio captions (some s) niche).1 = "Male" →
        genderWithFix cfg bio captions (some s) niche =
          detect_gender_from_text cfg bio captions (some s) niche) := by
  have hs : strEmpty s = false := by
    rcases hd : s.data with _ | ⟨c, cs⟩
    · exfalso
      have hh := congrArg String.data h
      simp only [toLowerStr, hd, List.map_nil] at hh
      exact absurd hh (by decide)
    · simp [strEmpty, hd]
  have htr : tstr (some s) = true := by simp [tstr, hs]
  have hdet := detect_gender_fst_cases cfg bio captions (some s) niche
  refine ⟨?_, ?_, ?_⟩
  · rcases hdet with hF | hM
    · simp [genderWithFix, applyChrisFix, htr, h, hF]
    · simp [genderWithFix, applyChrisFix, htr, h, hM]
  · intro hF
    simp [genderWithFix, applyChrisFix, htr, h, hF]
  · intro hM
    simp [genderWithFix, applyChrisFix, htr, h, hM]

/-- C2 witness: a concrete `"Chris"` profile classified `"Female"` by the chain
is forced to `("Male", 0.85)`. -/
theorem chris_override_amended_witness :
    (genderWithFix ⟨[], [], [], []⟩ "she her" [] (some "Chris") none).1 = "Male" ∧
      ((detect_gender_from_text ⟨[], [], [], []⟩ "she her" [] (some "Chris") none).1 =
          "Female" →
        genderWithFix ⟨[], [], [], []⟩ "she her" [] (some "Chris") none = ("Male", 17/20)) ∧
      ((detect_gender_from_text ⟨[], [], [], []⟩ "she her" [] (some "Chris") none).1 =
          "Male" →
        genderWithFix ⟨[], [], [], []⟩ "she her" [] (some "Chris") none =
          detect_gender_from_text ⟨[], [], [], []⟩ "she her" [] (some "Chris") none) :=
  chris_override_amended ⟨[], [], [], []⟩ "she her" [] "Chris" none (by decide)

theorem tryDirect_valid {pat : List Char → Option Nat} {cs : List Char} {a : Nat}
    (h : tryDirect pat cs = some a) : 13 ≤ a ∧ a ≤ 100 := by
  unfold tryDirect at h
  rcases hsc : scanFirst pat cs with _ | v <;> rw [hsc] at h
  · exact absurd h (by simp)
  · by_cases hv : 13 ≤ v ∧ v ≤ 100
    · simp [hv] at h
      rw [← h]
      exact hv
    · simp [hv] at h

theorem directAgeChain_valid {cs : List Char} {a : Nat}
    (h : directAgeChain cs = some a) : 13 ≤ a ∧ a ≤ 100 := by
  unfold directAgeChain at h
  rcases h1 : tryDirect p1At cs with _ | v <;> rw [h1] at h
  · rcases h2 : tryDirect p2At cs with _ | v <;> rw [h2] at h
    · rcases h3 : tryDirect p3At cs with _ | v <;> rw [h3] at h
      · exact tryDirect_valid h
      · cases h
        exact tryDirect_valid h3
    · cases h
      exact tryDirect_valid h2
  · cases h
    exact tryDirect_valid h1

/-- C8 counterexample: the text `"I am 5 and I\x27m 23"` contains the direct age
mention `23` (it contains the string `"I\x27m 23"`, and `13 ≤ 23 ≤ 100`), yet
`extract_age` returns `(null, "25-29")` rather than `(23, "18-24")`: only the
first match of each pattern is considered, and the first match of the first
pattern is the implausible `5`. -/
theorem extract_age_counterexample :
    containsStr "I am 5 and I\x27m 23" "I\x27m 23" = true ∧
      extract_age 2026 "I am 5 and I\x27m 23" = (none, some "25-29") ∧
      ¬ extract_age 2026 "I am 5 and I\x27m 23" = (some 23, some "18-24") := by
  refine ⟨by decide, by decide, by decide⟩

/-- C8 (amended): whenever the ordered direct-age pattern chain — each of the
four patterns contributing only its first match, the first value within the
plausibility bound `13 ≤ N ≤ 100` winning — produces `N`, `extract_age`
returns `(N, group)` where the group is `"Under 18"` for `N < 18`, `"18-24"`
for `N < 25`, `"25-29"` for `N < 30`, `"25-34"` for `N < 35`, `"35-44"` for
`N < 45`, and `"45+"` otherwise; the winning value always satisfies
`13 ≤ N ≤ 100`.  (A plausible mention shadowed by an earlier match of its own
pattern is not seen, which is what the counterexample exhibits.) -/
theorem extract_age_direct_amended (current_year : Nat) (text : String) (n : Nat)
    (h : directAgeChain text.data = some n) :
    extract_age current_year text = (some n, some (age_group_of n)) ∧
      age_group_of n =
        (if n < 18 then "Under 18"
         else if n < 25 then "18-24"
         else if n < 30 then "25-29"
         else if n < 35 then "25-34"
         else if n < 45 then "35-44"
         else "45+") ∧
      13 ≤ n ∧ n ≤ 100 := by
  have hne : strEmpty text = false := by
    rcases hd : text.data with _ | _
    · rw [hd] at h
      have hnone : directAgeChain [] = none := by decide
      rw [hnone] at h
      exact absurd h (by simp)
    · simp [strEmpty, hd]
  refine ⟨?_, rfl, directAgeChain_valid h⟩
  simp [extract_age, hne, h]

/-- C8 witness: the literal text `"I\x27m 23"` yields `(23, "18-24")`. -/
theorem extract_age_direct_amended_witness :
    extract_age 2026 "I\x27m 23" = (some 23, some (age_group_of 23)) ∧
      age_group_of 23 =
        (if 23 < 18 then "Under 18"
         else if 23 < 25 then "18-24"
         else if 23 < 30 then "25-29"
         else if 23 < 35 then "25-34"
         else if 23 < 45 then "35-44"
         else "45+") ∧
      13 ≤ 23 ∧ 23 ≤ 100 :=
  extract_age_direct_amended 2026 "I\x27m 23" 23 (by decide)

/-! ## Helper lemmas for the niche scorer -/

theorem assocAdd_map (g : String × List String → Nat) (k : String) (v : Nat) :
    ∀ (cats : List (String × List String)), (cats.map Prod.fst).Nodup →
      assocAdd k v (cats.map fun ck => (ck.1, g ck)) =
        cats.map (fun ck => (ck.1, if ck.1 = k then g ck + v else g ck))
  | [], _ => rfl
  | a :: l, hnd => by
    rw [List.map_cons, List.map_cons] at *
    rw [List.nodup_cons] at hnd
    by_cases ha : a.1 = k
    · rw [assocAdd, if_pos ha, if_pos ha]
      congr 1
      refine (List.map_congr_left fun ck hck => ?_).symm
      have hne : ck.1 ≠ k := by
        intro hk
        exact hnd.1 (by
          rw [ha, ← hk]
          exact List.mem_map_of_mem Prod.fst hck)
      rw [if_neg hne]
    · rw [assocAdd, if_neg ha, if_neg ha]
      congr 1
      exact assocAdd_map g k v l hnd.2

theorem condAdd_map (g : String × List String → Nat) (k : String) (v : Nat) (c : Bool)
    (cats : List (String × List String)) (hnd : (cats.map Prod.fst).Nodup) :
    (if c then assocAdd k v (cats.map fun ck => (ck.1, g ck))
     else cats.map fun ck => (ck.1, g ck)) =
      cats.map (fun ck => (ck.1, if c && decide (ck.1 = k) then g ck + v else g ck)) := by
  cases c
  · simp
  · rw [if_pos rfl, assocAdd_map g k v cats hnd]
    exact List.map_congr_left fun ck _ => by simp

theorem foldCond_map (tag : String) (v : Nat) :
    ∀ (iter : List (String × List String)) (cats : List (String × List String))
      (g : String × List String → Nat), (cats.map Prod.fst).Nodup →
      iter.foldl (fun sc ik => if kwMatch ik.2 tag then assocAdd ik.1 v sc else sc)
          (cats.map fun ck => (ck.1, g ck)) =
        cats.map fun ck =>
          (ck.1, g ck + v * iter.countP fun ik => kwMatch ik.2 tag && decide (ik.1 = ck.1))
  | [], cats, g, _ => by
    rw [List.foldl_nil]
    exact (List.map_congr_left fun ck _ => by simp).symm
  | ik :: iter, cats, g, hnd => by
    rw [List.foldl_cons, condAdd_map g ik.1 v (kwMatch ik.2 tag) cats hnd,
      foldCond_map tag v iter cats _ hnd]
    refine List.map_congr_left fun ck _ => ?_
    rw [Prod.mk.injEq]
    refine ⟨rfl, ?_⟩
    rw [List.countP_cons]
    by_cases h1 : kwMatch ik.2 tag <;> by_cases h2 : ck.1 = ik.1
    · rw [if_pos (by simp [h1, h2]), if_pos (by simp [h1, h2.symm])]
      ring
    · have h2' : ¬ (ik.1 = ck.1) := fun hh => h2 hh.symm
      rw [if_neg (by simp [h2]), if_neg (by simp [h2'])]
      ring
    · rw [if_neg (by simp [h1]), if_neg (by simp [h1])]
      ring
    · rw [if_neg (by simp [h1]), if_neg (by simp [h1])]
      ring

theorem countP_name_unique (q : String × List String → Bool) :
    ∀ (l : List (String × List String)), (l.map Prod.fst).Nodup →
      ∀ ck ∈ l, (l.countP fun ik => q ik && decide (ik.1 = ck.1)) = if q ck then 1 else 0
  | [], _, ck, hck => by simp at hck
  | a :: l, hnd, ck, hck => by
    rw [List.map_cons, List.nodup_cons] at hnd
    rcases List.mem_cons.mp hck with hck | hck
    · subst hck
      have hz : (l.countP fun ik => q ik && decide (ik.1 = ck.1)) = 0 := by
        rw [List.countP_eq_zero]
        intro ik hik
        have : ik.1 ≠ ck.1 := by
          intro hk
          exact hnd.1 (by
            rw [← hk]
            exact List.mem_map_of_mem Prod.fst hik)
        simp [this]
      rw [List.countP_cons, hz]
      by_cases hq : q ck <;> simp [hq]
    · have hne : a.1 ≠ ck.1 := by
        intro hk
        exact hnd.1 (by
          rw [hk]
          exact List.mem_map_of_mem Prod.fst hck)
      rw [List.countP_cons]
      rw [countP_name_unique q l hnd.2 ck hck]
      simp [hne]

theorem niche_names_nodup : (niche_categories.map Prod.fst).Nodup := by decide

theorem bumpCat_map (tag : String) (v : Nat) (g : String × List String → Nat) :
    bumpCat tag v (niche_categories.map fun ck => (ck.1, g ck)) =
      niche_categories.map fun ck =>
        (ck.1, g ck + if kwMatch ck.2 tag then v else 0) := by
  unfold bumpCat
  rw [foldCond_map tag v niche_categories niche_categories g niche_names_nodup]
  refine List.map_congr_left fun ck hck => ?_
  rw [countP_name_unique (fun ik => kwMatch ik.2 tag) niche_categories niche_names_nodup ck hck]
  by_cases h : kwMatch ck.2 tag <;> simp [h]

theorem scores_fold :
    ∀ (tcs : List (String × Nat)) (g : String × List String → Nat),
      tcs.foldl (fun sc tc => bumpCat tc.1 tc.2 sc) (niche_categories.map fun ck => (ck.1, g ck)) =
        niche_categories.map fun ck =>
          (ck.1, g ck + ((tcs.map fun tc => if kwMatch ck.2 tc.1 then tc.2 else 0).sum))
  | [], g => by
    rw [List.foldl_nil]
    exact (List.map_congr_left fun ck _ => by simp).symm
  | tc :: tcs, g => by
    rw [List.foldl_cons, bumpCat_map tc.1 tc.2 g,
      scores_fold tcs (fun ck => g ck + if kwMatch ck.2 tc.1 then tc.2 else 0)]
    refine List.map_congr_left fun ck _ => ?_
    rw [Prod.mk.injEq]
    exact ⟨rfl, by rw [List.map_cons, List.sum_cons]; ring⟩

theorem niche_scores_eq_spec_aux (posts : List Post) :
    niche_scores posts = niche_scores_spec posts := by
  unfold niche_scores niche_scores_spec
  have h0 : init_scores = niche_categories.map fun ck => (ck.1, (fun _ => 0) ck) := rfl
  rw [h0, scores_fold (hashtag_counts posts) (fun _ => 0)]
  exact List.map_congr_left fun ck _ => by simp

theorem mem_of_lookup :
    ∀ {l : List (String × Nat)} {k : String} {v : Nat}, l.lookup k = some v → (k, v) ∈ l := by
  intro l
  induction l with
  | nil => intro k v h; simp [List.lookup] at h
  | cons a l ih =>
    intro k v h
    rcases a with ⟨b, c⟩
    rcases hb : (k == b) with _ | _
    · simp only [List.lookup, hb] at h
      exact List.mem_cons_of_mem _ (ih h)
    · simp only [List.lookup, hb] at h
      cases h
      have hkb : k = b := by simpa using hb
      subst hkb
      exact List.mem_cons_self _ _

theorem pyRound_close (q : ℚ) : |(pyRound q : ℚ) - q| ≤ 1/2 := by
  simp only [pyRound]
  have h0 : (0 : ℚ) ≤ q - ⌊q⌋ := by
    have := Int.floor_le q
    linarith
  have h1 : q - ⌊q⌋ < 1 := by
    have := Int.lt_floor_add_one q
    linarith
  split_ifs with ha hb hc <;> rw [abs_le] <;> constructor <;> push_cast <;> linarith

theorem pyRound1_close (q : ℚ) : |pyRound1 q - q| ≤ 1/20 := by
  unfold pyRound1
  have h := pyRound_close (10 * q)
  rw [show (pyRound (10 * q) : ℚ) / 10 - q = ((pyRound (10 * q) : ℚ) - 10 * q) / 10 by ring,
    abs_div, abs_of_pos (by norm_num : (0:ℚ) < 10)]
  linarith

theorem sum_pyRound1_close (l : List ℚ) :
    |(l.map pyRound1).sum - l.sum| ≤ (l.length : ℚ) * (1/20) := by
  induction l with
  | nil => simp
  | cons q l ih =>
    simp only [List.map_cons, List.sum_cons, List.length_cons]
    have h1 := pyRound1_close q
    have h2 : |pyRound1 q + (l.map pyRound1).sum - (q + l.sum)| ≤
        |pyRound1 q - q| + |(l.map pyRound1).sum - l.sum| := by
      have := abs_add (pyRound1 q - q) ((l.map pyRound1).sum - l.sum)
      calc |pyRound1 q + (l.map pyRound1).sum - (q + l.sum)|
          = |(pyRound1 q - q) + ((l.map pyRound1).sum - l.sum)| := by ring_nf
        _ ≤ _ := this
    push_cast
    linarith

theorem sum_filter_posQ (l : List (String × Nat)) (f : String × Nat → ℚ)
    (h0 : ∀ cs : String × Nat, cs.2 = 0 → f cs = 0) :
    ((l.filter fun cs => 0 < cs.2).map f).sum = (l.map f).sum := by
  induction l with
  | nil => rfl
  | cons a l ih =>
    by_cases ha : 0 < a.2
    · simp [List.filter_cons, ha, ih]
    · have haz : a.2 = 0 := by omega
      simp [List.filter_cons, ha, ih, h0 a haz]

theorem totalScore_of_pos (posts : List Post)
    (h : ∃ cs ∈ niche_scores posts, 0 < cs.2) :
    totalScore posts = ((niche_scores posts).map fun cs : String × Nat => cs.2).sum ∧
      0 < ((niche_scores posts).map fun cs : String × Nat => cs.2).sum := by
  have hSpos : 0 < ((niche_scores posts).map fun cs : String × Nat => cs.2).sum := by
    rcases h with ⟨cs, hmem, hpos⟩
    have hm : cs.2 ∈ (niche_scores posts).map (fun cs : String × Nat => cs.2) :=
      List.mem_map_of_mem _ hmem
    have hle := List.single_le_sum
      (fun x (_ : x ∈ (niche_scores posts).map fun cs : String × Nat => cs.2) =>
        Nat.zero_le x) _ hm
    omega
  refine ⟨?_, hSpos⟩
  simp only [totalScore]
  rw [if_neg (by omega)]

theorem sum_exact_distribution (posts : List Post)
    (h : ∃ cs ∈ niche_scores posts, 0 < cs.2) :
    ((niche_scores posts).map fun cs =>
      (cs.2 : ℚ) / (totalScore posts : ℚ) * 100).sum = 100 := by
  obtain ⟨hT, hSpos⟩ := totalScore_of_pos posts h
  set S : Nat := ((niche_scores posts).map fun cs : String × Nat => cs.2).sum with hS
  have hSne : ((S : ℚ)) ≠ 0 := by
    have : (0:ℚ) < (S:ℚ) := by exact_mod_cast hSpos
    linarith
  have hmap : ((niche_scores posts).map fun cs => (cs.2 : ℚ) / (totalScore posts : ℚ) * 100) =
      (niche_scores posts).map fun cs => (fun cs : String × Nat => ((cs.2 : Nat) : ℚ)) cs *
        ((100 : ℚ) / (S : ℚ)) := by
    refine List.map_congr_left fun cs _ => ?_
    rw [hT]
    field_simp
  rw [hmap, List.sum_map_mul_right]
  have hcast : ((niche_scores posts).map fun cs : String × Nat => ((cs.2 : Nat) : ℚ)).sum =
      ((S : Nat) : ℚ) := by
    rw [hS]
    rw [show ((niche_scores posts).map fun cs : String × Nat => ((cs.2 : Nat) : ℚ)) =
        (((niche_scores posts).map fun cs : String × Nat => cs.2).map fun n : Nat => (n : ℚ)) by
      rw [List.map_map]; rfl]
    exact (Nat.cast_list_sum _).symm
  rw [hcast]
  field_simp

theorem niche_scores_length (posts : List Post) : (niche_scores posts).length = 20 := by
  rw [niche_scores_eq_spec_aux]
  rfl

/-- C7: the niche score table equals, category by category, the sum of the
counts of the hashtags whose lowercased form keyword-matches by substring (not
whole-word); the hashtag `"fitfam"` keyword-matches the `Fitness` keyword list,
so its count is never more than the `Fitness` score. -/
theorem identify_niche_substring_scores (posts : List Post) :
    niche_scores posts = niche_scores_spec posts ∧
      kwMatch ["fitness", "workout", "gym", "exercise", "health", "training", "muscle", "fit"]
        "fitfam" = true ∧
      countOfTag posts "fitfam" ≤ scoreOfCat posts "Fitness" := by
  have hfit : kwMatch
      ["fitness", "workout", "gym", "exercise", "health", "training", "muscle", "fit"]
      "fitfam" = true := by decide
  refine ⟨niche_scores_eq_spec_aux posts, hfit, ?_⟩
  have hscore : scoreOfCat posts "Fitness" =
      ((hashtag_counts posts).map fun tc =>
        if kwMatch ["fitness", "workout", "gym", "exercise", "health", "training", "muscle",
          "fit"] tc.1 then tc.2 else 0).sum := by
    unfold scoreOfCat
    rw [niche_scores_eq_spec_aux]
    simp [niche_scores_spec, niche_categories, List.lookup]
  rcases hlk : (hashtag_counts posts).lookup "fitfam" with _ | n
  · simp [countOfTag, hlk]
  · have hmem : ("fitfam", n) ∈ hashtag_counts posts := mem_of_lookup hlk
    have hterm := List.mem_map_of_mem
      (fun tc : String × Nat =>
        if kwMatch ["fitness", "workout", "gym", "exercise", "health", "training", "muscle",
          "fit"] tc.1 then tc.2 else 0) hmem
    have hle := List.single_le_sum
      (fun x (_ : x ∈ (hashtag_counts posts).map fun tc : String × Nat =>
        if kwMatch ["fitness", "workout", "gym", "exercise", "health", "training", "muscle",
          "fit"] tc.1 then tc.2 else 0) => Nat.zero_le x) _ hterm
    simp only [countOfTag, hlk, Option.getD_some]
    rw [hscore]
    simpa [hfit] using hle

/-- C6 (amended): whenever at least one category scored above zero, the values
of the distribution before the below-2-percent filter sum to 100 within the
accumulated rounding bound of 1 (20 entries, each rounded to one decimal); the
returned distribution is that table with entries below 2 removed, so its sum is
100 minus the dropped percentages. -/
theorem identify_niche_distribution_amended (posts : List Post)
    (h : ∃ cs ∈ niche_scores posts, 0 < cs.2) :
    |((distributionFull posts).map fun kv => kv.2).sum - 100| ≤ 1 ∧
      (identify_niche posts).distribution =
        (distributionFull posts).filter fun kv => 2 ≤ kv.2 := by
  refine ⟨?_, rfl⟩
  have hvals : (distributionFull posts).map (fun kv => kv.2) =
      (((niche_scores posts).filter fun cs => 0 < cs.2).map
        (fun cs => (cs.2 : ℚ) / (totalScore posts : ℚ) * 100)).map pyRound1 := by
    unfold distributionFull
    rw [List.map_map, List.map_map]
    rfl
  set l := ((niche_scores posts).filter fun cs => 0 < cs.2).map
    (fun cs => (cs.2 : ℚ) / (totalScore posts : ℚ) * 100) with hl
  have hsum : l.sum = 100 := by
    rw [hl, sum_filter_posQ _ _ (fun cs hcs => by rw [hcs]; simp)]
    exact sum_exact_distribution posts h
  have hlen : (l.length : ℚ) ≤ 20 := by
    have h1 : l.length ≤ (niche_scores posts).length := by
      rw [hl, List.length_map]
      exact List.length_filter_le _ _
    rw [niche_scores_length] at h1
    exact_mod_cast h1
  have hclose := sum_pyRound1_close l
  rw [hvals, ← hsum]
  calc |(l.map pyRound1).sum - l.sum| ≤ (l.length : ℚ) * (1/20) := hclose
    _ ≤ 20 * (1/20) := by
        have : (0:ℚ) ≤ 1/20 := by norm_num
        nlinarith
    _ = 1 := by norm_num

/-- C6 counterexample: a post whose caption carries 52 `#travel` hashtags and
one `#gamer` hashtag gives Travel a rounded 98.1 percent share and Gaming 1.9
percent; the Gaming entry is dropped by the below-2-percent filter, so the
values of the returned distribution sum to 98.1 — off from 100 by 1.9, beyond
any accumulated rounding error (at most 0.05 per rounded entry, 1 in total). -/
theorem identify_niche_distribution_counterexample :
    ((identify_niche
        [⟨"#travel #travel #travel #travel #travel #travel #travel #travel #travel #travel #travel #travel #travel #travel #travel #travel #travel #travel #travel #travel #travel #travel #travel #travel #travel #travel #travel #travel #travel #travel #travel #travel #travel #travel #travel #travel #travel #travel #travel #travel #travel #travel #travel #travel #travel #travel #travel #travel #travel #travel #travel #travel #gamer", none, 0, 0, false, none, none, []⟩]).distribution.map
      fun kv => kv.2).sum = 981/10 ∧
      ¬ (|((identify_niche
            [⟨"#travel #travel #travel #travel #travel #travel #travel #travel #travel #travel #travel #travel #travel #travel #travel #travel #travel #travel #travel #travel #travel #travel #travel #travel #travel #travel #travel #travel #travel #travel #travel #travel #travel #travel #travel #travel #travel #travel #travel #travel #travel #travel #travel #travel #travel #travel #travel #travel #travel #travel #travel #travel #gamer", none, 0, 0, false, none, none, []⟩]).distribution.map
          fun kv => kv.2).sum - 100| ≤ 1) := by
  have hfil : (niche_scores
      [⟨"#travel #travel #travel #travel #travel #travel #travel #travel #travel #travel #travel #travel #travel #travel #travel #travel #travel #travel #travel #travel #travel #travel #travel #travel #travel #travel #travel #travel #travel #travel #travel #travel #travel #travel #travel #travel #travel #travel #travel #travel #travel #travel #travel #travel #travel #travel #travel #travel #travel #travel #travel #travel #gamer", none, 0, 0, false, none, none, []⟩]).filter
        (fun cs => 0 < cs.2) = [("Travel", 52), ("Gaming", 1)] := by decide
  have htot : totalScore
      [⟨"#travel #travel #travel #travel #travel #travel #travel #travel #travel #travel #travel #travel #travel #travel #travel #travel #travel #travel #travel #travel #travel #travel #travel #travel #travel #travel #travel #travel #travel #travel #travel #travel #travel #travel #travel #travel #travel #travel #travel #travel #travel #travel #travel #travel #travel #travel #travel #travel #travel #travel #travel #travel #gamer", none, 0, 0, false, none, none, []⟩] = 53 := by decide
  have hv1 : pyRound1 (((52:ℕ):ℚ)/((53:ℕ):ℚ)*100) = 981/10 := by
    rw [show ((52:ℕ):ℚ)/((53:ℕ):ℚ)*100 = 5200/53 by push_cast; ring]
    have hf : ⌊(10:ℚ) * (5200/53)⌋ = 981 := by
      rw [show (10:ℚ) * (5200/53) = 52000/53 by ring, Int.floor_eq_iff]
      constructor <;> norm_num
    simp only [pyRound1, pyRound]
    rw [hf]
    norm_num
  have hv2 : pyRound1 (((1:ℕ):ℚ)/((53:ℕ):ℚ)*100) = 19/10 := by
    rw [show ((1:ℕ):ℚ)/((53:ℕ):ℚ)*100 = 100/53 by push_cast; ring]
    have hf : ⌊(10:ℚ) * (100/53)⌋ = 18 := by
      rw [show (10:ℚ) * (100/53) = 1000/53 by ring, Int.floor_eq_iff]
      constructor <;> norm_num
    simp only [pyRound1, pyRound]
    rw [hf]
    norm_num
  have hdistfull : distributionFull
      [⟨"#travel #travel #travel #travel #travel #travel #travel #travel #travel #travel #travel #travel #travel #travel #travel #travel #travel #travel #travel #travel #travel #travel #travel #travel #travel #travel #travel #travel #travel #travel #travel #travel #travel #travel #travel #travel #travel #travel #travel #travel #travel #travel #travel #travel #travel #travel #travel #travel #travel #travel #travel #travel #gamer", none, 0, 0, false, none, none, []⟩] =
      [("Travel", 981/10), ("Gaming", 19/10)] := by
    unfold distributionFull
    rw [hfil, htot]
    simp only [List.map_cons, List.map_nil]
    rw [hv1, hv2]
  have hdist : (identify_niche
      [⟨"#travel #travel #travel #travel #travel #travel #travel #travel #travel #travel #travel #travel #travel #travel #travel #travel #travel #travel #travel #travel #travel #travel #travel #travel #travel #travel #travel #travel #travel #travel #travel #travel #travel #travel #travel #travel #travel #travel #travel #travel #travel #travel #travel #travel #travel #travel #travel #travel #travel #travel #travel #travel #gamer", none, 0, 0, false, none, none, []⟩]).distribution =
      [("Travel", 981/10)] := by
    have hproj : (identify_niche
        [⟨"#travel #travel #travel #travel #travel #travel #travel #travel #travel #travel #travel #travel #travel #travel #travel #travel #travel #travel #travel #travel #travel #travel #travel #travel #travel #travel #travel #travel #travel #travel #travel #travel #travel #travel #travel #travel #travel #travel #travel #travel #travel #travel #travel #travel #travel #travel #travel #travel #travel #travel #travel #travel #gamer", none, 0, 0, false, none, none, []⟩]).distribution =
        (distributionFull
          [⟨"#travel #travel #travel #travel #travel #travel #travel #travel #travel #travel #travel #travel #travel #travel #travel #travel #travel #travel #travel #travel #travel #travel #travel #travel #travel #travel #travel #travel #travel #travel #travel #travel #travel #travel #travel #travel #travel #travel #travel #travel #travel #travel #travel #travel #travel #travel #travel #travel #travel #travel #travel #travel #gamer", none, 0, 0, false, none, none, []⟩]).filter
          fun kv => 2 ≤ kv.2 := rfl
    rw [hproj, hdistfull]
    norm_num [List.filter]
  rw [hdist]
  norm_num
  rw [abs_of_nonneg (by norm_num : (0:ℚ) ≤ 19/10)]
  norm_num

/-- C6 witness: a single `#travel` caption has a scored category; the
pre-filter distribution sums to 100 within 1 and the returned map is its
filtered form. -/
theorem identify_niche_distribution_amended_witness :
    |((distributionFull [⟨"#travel", none, 0, 0, false, none, none, []⟩]).map
        fun kv => kv.2).sum - 100| ≤ 1 ∧
      (identify_niche [⟨"#travel", none, 0, 0, false, none, none, []⟩]).distribution =
        (distributionFull [⟨"#travel", none, 0, 0, false, none, none, []⟩]).filter
          fun kv => 2 ≤ kv.2 :=
  identify_niche_distribution_amended [⟨"#travel", none, 0, 0, false, none, none, []⟩]
    (by decide)

/-- C3: evidence for the code bug.  On a nonempty post list in which no post
carries a `taken_at` timestamp, `analyze_post_info` raises `UnboundLocalError`
(its final `update` reads `overall_frequency`, assigned only under
`if post_timestamps:`), so the per-creator analysis does not complete and no
record is produced — against the always-complete-record contract.  On an empty
post list the defaults are returned unchanged, as the contract states. -/
theorem analyze_post_info_unbound_local :
    analyze_post_info_pf 0 [⟨"no timestamp here", none, 3, 4, false, none, none, []⟩]
        postingFrequencyInit =
      .error "UnboundLocalError: local variable overall_frequency referenced before assignment" ∧
      analyze_post_info_pf 0 [] postingFrequencyInit = .ok postingFrequencyInit := by
  constructor <;> rfl

/-! ## Helper lemmas for the brand scanner -/

theorem lookup_setKey_self {β : Type} (k : String) (v : β) :
    ∀ (l : List (String × β)), (setKey k v l).lookup k = some v
  | [] => by simp [setKey, List.lookup]
  | (k2, w) :: l => by
    by_cases hk : k2 = k
    · subst hk
      simp [setKey, List.lookup]
    · have hbeq : (k == k2) = false := beq_eq_false_iff_ne.mpr fun h => hk h.symm
      simp [setKey, hk, List.lookup, hbeq, lookup_setKey_self k v l]

theorem lookup_setKey_ne {β : Type} {k k2 : String} (h : k2 ≠ k) (v : β) :
    ∀ (l : List (String × β)), (setKey k v l).lookup k2 = l.lookup k2
  | [] => by
    have hbeq : (k2 == k) = false := beq_eq_false_iff_ne.mpr h
    simp [setKey, List.lookup, hbeq]
  | (k3, w) :: l => by
    by_cases hk : k3 = k
    · subst hk
      have hbeq : (k2 == k3) = false := beq_eq_false_iff_ne.mpr h
      simp [setKey, List.lookup, hbeq]
    · simp only [setKey, if_neg hk]
      rcases hb : (k2 == k3) with _ | _
      · simp [List.lookup, hb, lookup_setKey_ne h v l]
      · simp [List.lookup, hb]

theorem mem_setKey {β : Type} {kv : String × β} {k : String} {v : β} :
    ∀ {l : List (String × β)}, kv ∈ setKey k v l → kv = (k, v) ∨ kv ∈ l := by
  intro l
  induction l with
  | nil => intro h; simpa [setKey] using h
  | cons a l ih =>
    rcases a with ⟨k2, w⟩
    by_cases hk : k2 = k
    · subst hk
      intro h
      rw [setKey, if_pos rfl] at h
      rcases List.mem_cons.mp h with h | h
      · exact Or.inl h
      · exact Or.inr (List.mem_cons_of_mem _ h)
    · intro h
      rw [setKey, if_neg hk] at h
      rcases List.mem_cons.mp h with h | h
      · exact Or.inr (by rw [h]; exact List.mem_cons_self _ _)
      · rcases ih h with h | h
        · exact Or.inl h
        · exact Or.inr (List.mem_cons_of_mem _ h)

theorem scanInv_processMention {st : ScanState} {m : String} {isRec : Bool}
    (hm : validMention m = true) (hst : ScanInv st) :
    ScanInv (processMention isRec st m) := by
  obtain ⟨h1, h2⟩ := hst
  unfold processMention
  rcases hlk : st.mentionsCount.lookup m with _ | s
  · refine ⟨?_, ?_⟩
    · intro kv hkv
      rcases mem_setKey hkv with h | h
      · rw [h]
        exact hm
      · exact h1 kv h
    · intro k f hrf hfm
      by_cases hk : k = m
      · subst hk
        rw [lookup_setKey_self]
        rfl
      · rw [lookup_setKey_ne hk] at hrf ⊢
        exact h2 k f hrf hfm
  · rcases hsrc : st.brandSources.lookup m with _ | f0
    · refine ⟨?_, ?_⟩
      · intro kv hkv
        rcases mem_setKey hkv with h | h
        · rw [h]
          exact hm
        · exact h1 kv h
      · intro k f hrf hfm
        by_cases hk : k = m
        · subst hk
          rw [lookup_setKey_self]
          rfl
        · rw [lookup_setKey_ne hk]
          exact h2 k f hrf hfm
    · refine ⟨?_, ?_⟩
      · intro kv hkv
        rcases mem_setKey hkv with h | h
        · rw [h]
          exact hm
        · exact h1 kv h
      · intro k f hrf hfm
        by_cases hk : k = m
        · subst hk
          rw [lookup_setKey_self]
          rfl
        · rw [lookup_setKey_ne hk] at hrf ⊢
          exact h2 k f hrf hfm

theorem scanInv_processHashtag {st : ScanState} {h : String} {isRec : Bool}
    (hst : ScanInv st) : ScanInv (processHashtag isRec st h) := by
  obtain ⟨h1, h2⟩ := hst
  unfold processHashtag
  rcases hlk : st.hashtagsCount.lookup h with _ | s
  · rcases hsrc : st.brandSources.lookup h with _ | f0
    · refine ⟨h1, ?_⟩
      intro k f hrf hfm
      by_cases hk : k = h
      · subst hk
        rw [lookup_setKey_self] at hrf
        cases hrf
        exact absurd hfm (by simp)
      · rw [lookup_setKey_ne hk] at hrf
        exact h2 k f hrf hfm
    · refine ⟨h1, ?_⟩
      intro k f hrf hfm
      by_cases hk : k = h
      · subst hk
        rw [lookup_setKey_self] at hrf
        cases hrf
        exact h2 k f0 hsrc hfm
      · rw [lookup_setKey_ne hk] at hrf
        exact h2 k f hrf hfm
  · exact ⟨h1, h2⟩

theorem foldl_scanInv_mentions (isRec : Bool) :
    ∀ (ms : List String), (∀ m ∈ ms, validMention m = true) →
      ∀ (st : ScanState), ScanInv st → ScanInv (ms.foldl (processMention isRec) st)
  | [], _, st, hst => hst
  | m :: ms, hms, st, hst => by
    rw [List.foldl_cons]
    exact foldl_scanInv_mentions isRec ms (fun x hx => hms x (List.mem_cons_of_mem _ hx)) _
      (scanInv_processMention (hms m (List.mem_cons_self _ _)) hst)

theorem foldl_scanInv_hashtags (isRec : Bool) :
    ∀ (hs : List String) (st : ScanState), ScanInv st →
      ScanInv (hs.foldl (processHashtag isRec) st)
  | [], st, hst => hst
  | h :: hs, st, hst => by
    rw [List.foldl_cons]
    exact foldl_scanInv_hashtags isRec hs _ (scanInv_processHashtag hst)

theorem scanPosts_inv (cutoff : Int) (posts : List Post) :
    ScanInv (scanPosts cutoff posts) := by
  have hstep : ∀ (st : ScanState) (p : Post), ScanInv st →
      ScanInv (if strEmpty p.caption then st
        else (extract_hashtags p.caption).foldl (processHashtag (isRecentTs cutoff p.taken_at))
          ((filteredMentions p.caption).foldl (processMention (isRecentTs cutoff p.taken_at)) st)) := by
    intro st p hst
    by_cases hc : strEmpty p.caption
    · rwa [if_pos hc]
    · rw [if_neg hc]
      refine foldl_scanInv_hashtags _ _ _ ?_
      refine foldl_scanInv_mentions _ _ ?_ _ hst
      intro m hm
      exact (List.mem_filter.mp hm).2
  have hinit : ScanInv ⟨[], [], []⟩ := by
    constructor
    · intro kv hkv
      simp at hkv
    · intro k f hrf
      simp [List.lookup] at hrf
  unfold scanPosts
  generalize hst : (⟨[], [], []⟩ : ScanState) = st0 at hinit
  clear hst
  induction posts generalizing st0 with
  | nil => exact hinit
  | cons p ps ih =>
    rw [List.foldl_cons]
    exact ih _ (hstep st0 p hinit)

theorem mem_stableInsert {α : Type} (le : α → α → Bool) (x y : α) :
    ∀ (l : List α), y ∈ stableInsert le x l ↔ y = x ∨ y ∈ l
  | [] => by simp [stableInsert]
  | z :: l => by
    by_cases hz : le z x
    · rw [stableInsert, if_pos hz]
      rw [List.mem_cons, List.mem_cons, mem_stableInsert le x y l]
      tauto
    · rw [stableInsert, if_neg hz]
      rw [List.mem_cons, List.mem_cons]

theorem mem_stableSort_aux {α : Type} (le : α → α → Bool) :
    ∀ (l acc : List α) (y : α),
      y ∈ l.foldl (fun acc x => stableInsert le x acc) acc ↔ y ∈ acc ∨ y ∈ l
  | [], acc, y => by simp
  | x :: l, acc, y => by
    rw [List.foldl_cons, mem_stableSort_aux le l (stableInsert le x acc) y,
      mem_stableInsert le x y acc, List.mem_cons]
    tauto

theorem mem_stableSort {α : Type} (le : α → α → Bool) (l : List α) (y : α) :
    y ∈ stableSort le l ↔ y ∈ l := by
  rw [stableSort, mem_stableSort_aux le l [] y]
  simp

theorem mem_dedupByNameGo :
    ∀ (seen : List String) (l : List (String × String)) (e : String × String),
      e ∈ dedupByNameGo seen l → e ∈ l
  | _, [], _, h => by simp [dedupByNameGo] at h
  | seen, x :: l, e, h => by
    by_cases hx : seen.contains x.1
    · rw [dedupByNameGo, if_pos hx] at h
      exact List.mem_cons_of_mem _ (mem_dedupByNameGo _ _ _ h)
    · rw [dedupByNameGo, if_neg hx] at h
      rcases List.mem_cons.mp h with h | h
      · rw [h]
        exact List.mem_cons_self _ _
      · exact List.mem_cons_of_mem _ (mem_dedupByNameGo _ _ _ h)

theorem validMention_false {t : String}
    (h : t.length < 3 ∨ toLowerStr t ∈ mentionStopWords) : validMention t = false := by
  unfold validMention
  rcases h with h | h
  · rw [decide_eq_false (by omega)]
    rfl
  · have : mentionStopWords.contains (toLowerStr t) = true := by
      rw [List.contains_eq_any_beq]
      rw [List.any_eq_true]
      exact ⟨toLowerStr t, h, by simp⟩
    rw [this]
    simp

theorem mentionEntries_valid {cutoff : Int} {posts : List Post} {e : CollabRec}
    (he : e ∈ mentionEntries cutoff posts) : validMention e.name = true := by
  unfold mentionEntries at he
  simp only [List.mem_map] at he
  obtain ⟨kv, hkv, rfl⟩ := he
  exact (scanPosts_inv cutoff posts).1 kv (List.mem_filter.mp hkv).1

theorem hashtagEntries_source {cutoff : Int} {posts : List Post} {e : CollabRec}
    (he : e ∈ hashtagEntries cutoff posts) : e.source = "hashtag" ∨ e.source = "" := by
  unfold hashtagEntries at he
  simp only [List.mem_map] at he
  obtain ⟨kv, hkv, rfl⟩ := he
  have hcond := (List.mem_filter.mp hkv).2
  rw [Bool.and_eq_true] at hcond
  have hnone : ((scanPosts cutoff posts).mentionsCount.lookup kv.1).isNone = true := hcond.1
  rcases hlk : (scanPosts cutoff posts).brandSources.lookup kv.1 with _ | f
  · right
    simp [hlk, sourceStr, joinAmp]
  · have hm : f.mention = false := by
      rcases hfm : f.mention with _ | _
      · rfl
      · have := (scanPosts_inv cutoff posts).2 kv.1 f hlk hfm
        rw [Option.isNone_iff_eq_none] at hnone
        rw [hnone] at this
        exact absurd this (by simp)
    rcases f with ⟨fm, fh⟩
    simp only at hm
    subst hm
    rcases fh with _ | _
    · right
      simp [hlk, sourceStr, joinAmp]
    · left
      simp [hlk, sourceStr, joinAmp]

/-- C10: a caption mention token shorter than 3 characters or on the fixed
stop-word list is reported by no mention-sourced entry: not among the
mention-sourced rows of `top_collaborations`, nor of
`recent_brands_with_source` / `previous_brands_with_source` (whose name lists
are the `recent_brands` / `previous_brands` outputs). -/
theorem collaborations_mention_stopword_filter (cutoff : Int) (posts : List Post) (t : String)
    (hbad : t.length < 3 ∨ toLowerStr t ∈ mentionStopWords) :
    (∀ e ∈ top_collaborations cutoff posts,
        e.source = "mention" ∨ e.source = "mention & hashtag" → e.name ≠ t) ∧
      (∀ e ∈ recent_brands_with_source cutoff posts, e.2 = "mention" → e.1 ≠ t) ∧
      (∀ e ∈ previous_brands_with_source cutoff posts, e.2 = "mention" → e.1 ≠ t) := by
  have hval := validMention_false hbad
  refine ⟨?_, ?_, ?_⟩
  · intro e he hsrc
    rw [top_collaborations, mem_stableSort] at he
    rcases List.mem_append.mp he with he | he
    · intro heq
      have hv := mentionEntries_valid he
      rw [heq, hval] at hv
      exact Bool.noConfusion hv
    · rcases hashtagEntries_source he with h | h <;> rcases hsrc with h2 | h2 <;>
        rw [h] at h2 <;> exact absurd h2 (by decide)
  · intro e he h2
    rcases List.mem_append.mp (mem_dedupByNameGo _ _ _ he) with hin | hin <;>
      simp only [List.mem_map] at hin <;> obtain ⟨kv, hkv, rfl⟩ := hin
    · have hv := (scanPosts_inv cutoff posts).1 kv (List.mem_filter.mp hkv).1
      intro heq
      rw [show kv.1 = t from heq, hval] at hv
      exact Bool.noConfusion hv
    · simp at h2
  · intro e he h2
    rcases List.mem_append.mp (mem_dedupByNameGo _ _ _ he) with hin | hin <;>
      simp only [List.mem_map] at hin <;> obtain ⟨kv, hkv, rfl⟩ := hin
    · have hv := (scanPosts_inv cutoff posts).1 kv (List.mem_filter.mp hkv).1
      intro heq
      rw [show kv.1 = t from heq, hval] at hv
      exact Bool.noConfusion hv
    · simp at h2

/-- C10 witness: the stop word `"my"` (also shorter than 3 characters) appears
mentioned twice in a concrete post yet is reported by no mention-sourced
entry. -/
theorem collaborations_mention_stopword_filter_witness :
    (∀ e ∈ top_collaborations 0
        [⟨"@my stuff @my @nike fun @nike", some 100, 5, 2, false, some "me", none, []⟩],
        e.source = "mention" ∨ e.source = "mention & hashtag" → e.name ≠ "my") ∧
      (∀ e ∈ recent_brands_with_source 0
        [⟨"@my stuff @my @nike fun @nike", some 100, 5, 2, false, some "me", none, []⟩],
        e.2 = "mention" → e.1 ≠ "my") ∧
      (∀ e ∈ previous_brands_with_source 0
        [⟨"@my stuff @my @nike fun @nike", some 100, 5, 2, false, some "me", none, []⟩],
        e.2 = "mention" → e.1 ≠ "my") :=
  collaborations_mention_stopword_filter 0
    [⟨"@my stuff @my @nike fun @nike", some 100, 5, 2, false, some "me", none, []⟩] "my"
    (Or.inl (by decide))

/-! ## Helper lemmas for the geo pipeline -/

theorem find_country_eq_find? (lat lng : ℚ) :
    ∀ (db : List (String × Country)),
      find_country lat lng db = db.find? fun cc => is_within_bounds lat lng cc.2.bounds
  | [] => rfl
  | cc :: rest => by
    rw [find_country, List.find?_cons]
    rcases hc : is_within_bounds lat lng cc.2.bounds with _ | _
    · simp [hc, find_country_eq_find? lat lng rest]
    · simp [hc]

theorem find_sub_in_eq_find? (lat lng : ℚ) :
    ∀ (l : List (String × Subdivision)),
      find_sub_in lat lng l = l.find? fun sc => is_within_bounds lat lng sc.2.bounds
  | [] => rfl
  | sc :: rest => by
    rw [find_sub_in, List.find?_cons]
    rcases hc : is_within_bounds lat lng sc.2.bounds with _ | _
    · simp [hc, find_sub_in_eq_find? lat lng rest]
    · simp [hc]

theorem find_subdivision_eq_find? (lat lng : ℚ) (c : Country) :
    find_subdivision lat lng c =
      (c.states ++ c.provinces ++ c.regions ++ c.emirates ++ c.countries ++
        c.governorates).find? fun sc => is_within_bounds lat lng sc.2.bounds := by
  unfold find_subdivision
  simp only [find_sub_in_eq_find?, List.find?_append]
  rcases h1 : List.find? (fun sc => is_within_bounds lat lng sc.2.bounds) c.states with _ | r
  · rw [h1]
    rcases h2 : List.find? (fun sc => is_within_bounds lat lng sc.2.bounds) c.provinces with _ | r
    · rw [h2]
      rcases h3 : List.find? (fun sc => is_within_bounds lat lng sc.2.bounds) c.regions with _ | r
      · rw [h3]
        rcases h4 : List.find? (fun sc => is_within_bounds lat lng sc.2.bounds) c.emirates with _ | r
        · rw [h4]
          rcases h5 : List.find? (fun sc => is_within_bounds lat lng sc.2.bounds) c.countries with _ | r
          · rw [h5]
            rfl
          · rw [h5]
            rfl
        · rw [h4]
          rfl
      · rw [h3]
        rfl
    · rw [h2]
      rfl
  · rw [h1]
    rfl

theorem lmStep_map {α : Type} [LinearOrder α] (d : ℚ → ℚ → α) (maxd : α)
    (b : Option (String × LandmarkData)) (nl : String × LandmarkData) :
    lmStep d maxd (b.map fun x => (x.1, x.2, d x.2.lat x.2.lng)) nl =
      if d nl.2.lat nl.2.lng ≤ maxd then
        (fmStep (fun x => d x.2.lat x.2.lng) b nl).map fun x => (x.1, x.2, d x.2.lat x.2.lng)
      else b.map fun x => (x.1, x.2, d x.2.lat x.2.lng) := by
  by_cases hle : d nl.2.lat nl.2.lng ≤ maxd
  · rw [if_pos hle]
    rcases b with _ | bb
    · simp [lmStep, fmStep, hle]
    · by_cases hlt : d nl.2.lat nl.2.lng < d bb.2.lat bb.2.lng
      · simp [lmStep, fmStep, hle, hlt]
      · simp [lmStep, fmStep, hle, hlt]
  · rw [if_neg hle]
    rcases b with _ | bb
    · simp [lmStep, hle]
    · simp [lmStep, hle]

theorem lmFold_eq {α : Type} [LinearOrder α] (d : ℚ → ℚ → α) (maxd : α) :
    ∀ (l : List (String × LandmarkData)) (b : Option (String × LandmarkData)),
      l.foldl (lmStep d maxd) (b.map fun x => (x.1, x.2, d x.2.lat x.2.lng)) =
        ((l.filter fun nl => decide (d nl.2.lat nl.2.lng ≤ maxd)).foldl
          (fmStep fun x => d x.2.lat x.2.lng) b).map fun x => (x.1, x.2, d x.2.lat x.2.lng)
  | [], b => by simp
  | nl :: l, b => by
    rw [List.foldl_cons, List.filter_cons, lmStep_map]
    by_cases hle : d nl.2.lat nl.2.lng ≤ maxd
    · rw [if_pos hle, if_pos (by simpa using hle), List.foldl_cons]
      exact lmFold_eq d maxd l _
    · rw [if_neg hle, if_neg (by simpa using hle)]
      exact lmFold_eq d maxd l b

theorem find_landmark_eq_spec {α : Type} [LinearOrder α] (d : ℚ → ℚ → α) (maxd : α)
    (s : Subdivision) :
    (find_landmark d maxd s).map (fun x => (x.1, x.2.1)) =
      firstMinBy (fun nl => d nl.2.lat nl.2.lng)
        (s.landmarks.filter fun nl => decide (d nl.2.lat nl.2.lng ≤ maxd)) := by
  unfold find_landmark firstMinBy
  have h := lmFold_eq d maxd s.landmarks none
  rw [show ((none : Option (String × LandmarkData)).map
      fun x => (x.1, x.2, d x.2.lat x.2.lng)) = none from rfl] at h
  rw [h]
  rcases hx : (s.landmarks.filter fun nl => decide (d nl.2.lat nl.2.lng ≤ maxd)).foldl
      (fmStep fun x => d x.2.lat x.2.lng) none with _ | x
  · rw [hx]
    rfl
  · rw [hx]
    rfl

theorem cityStep_map {α : Type} [LinearOrder α] (d : ℚ → ℚ → α)
    (b : Option (String × CityCoord)) (nc : String × CityCoord) :
    cityStep d (b.map fun x => (x.1, d x.2.lat x.2.lng)) nc =
      (fmStep (fun x => d x.2.lat x.2.lng) b nc).map fun x => (x.1, d x.2.lat x.2.lng) := by
  rcases b with _ | bb
  · simp [cityStep, fmStep]
  · by_cases hlt : d nc.2.lat nc.2.lng < d bb.2.lat bb.2.lng
    · simp [cityStep, fmStep, hlt]
    · simp [cityStep, fmStep, hlt]

theorem cityFold_eq {α : Type} [LinearOrder α] (d : ℚ → ℚ → α) :
    ∀ (l : List (String × CityCoord)) (b : Option (String × CityCoord)),
      l.foldl (cityStep d) (b.map fun x => (x.1, d x.2.lat x.2.lng)) =
        ((l.foldl (fmStep fun x => d x.2.lat x.2.lng) b).map fun x => (x.1, d x.2.lat x.2.lng))
  | [], b => rfl
  | nc :: l, b => by
    rw [List.foldl_cons, List.foldl_cons, cityStep_map]
    exact cityFold_eq d l _

theorem fmFold_chk {γ : Type} {α : Type} [LinearOrder α] (f : γ → α) (t : α) :
    ∀ (l : List γ) (b : Option γ),
      ((l.foldl (fmStep f) b).bind fun x => if f x ≤ t then some x else none) =
        (l.filter fun x => decide (f x ≤ t)).foldl (fmStep f)
          (b.bind fun x => if f x ≤ t then some x else none)
  | [], b => rfl
  | x :: l, b => by
    rw [List.foldl_cons, List.filter_cons]
    by_cases hx : f x ≤ t
    · rw [if_pos (by simpa using hx), List.foldl_cons, fmFold_chk f t l (fmStep f b x)]
      congr 1
      rcases b with _ | bb
      · simp [fmStep, hx]
      · by_cases hlt : f x < f bb
        · by_cases hbb : f bb ≤ t
          · simp [fmStep, hlt, hx, hbb]
          · simp [fmStep, hlt, hx, hbb]
        · by_cases hbb : f bb ≤ t
          · simp [fmStep, hlt, hx, hbb]
          · exact absurd (le_trans (not_lt.mp hlt) hx) hbb
    · rw [if_neg (by simpa using hx), fmFold_chk f t l (fmStep f b x)]
      congr 1
      rcases b with _ | bb
      · simp [fmStep, hx]
      · by_cases hlt : f x < f bb
        · by_cases hbb : f bb ≤ t
          · exact absurd (le_of_lt (lt_of_lt_of_le hlt hbb)) hx
          · simp [fmStep, hlt, hx, hbb]
        · simp [fmStep, hlt]

theorem find_city_eq_spec {α : Type} [LinearOrder α] (d : ℚ → ℚ → α) (maxd : α)
    (s : Subdivision) :
    find_city d maxd s =
      (firstMinBy (fun nc => d nc.2.lat nc.2.lng)
        (s.major_cities.filter fun nc => decide (d nc.2.lat nc.2.lng ≤ maxd))).map
        fun nc => nc.1 := by
  unfold find_city firstMinBy
  have hA := cityFold_eq d s.major_cities none
  rw [show ((none : Option (String × CityCoord)).map fun x => (x.1, d x.2.lat x.2.lng)) = none
    from rfl] at hA
  have hB := fmFold_chk (fun x : String × CityCoord => d x.2.lat x.2.lng) maxd
    s.major_cities none
  rw [show ((none : Option (String × CityCoord)).bind
      fun x => if d x.2.lat x.2.lng ≤ maxd then some x else none) = none from rfl] at hB
  rw [hA, ← hB]
  rcases hf : s.major_cities.foldl (fmStep fun x => d x.2.lat x.2.lng) none with _ | x
  · rw [hf]
    rfl
  · rw [hf]
    by_cases hx : d x.2.lat x.2.lng ≤ maxd
    · simp [hx]
    · simp [hx]

theorem find_county_eq_spec {α : Type} [LinearOrder α] (d : ℚ → ℚ → α) (one : α) :
    ∀ (l : List (String × LandmarkData)),
      find_county_in d one l =
        (l.find? fun nl => nl.2.county.isSome && decide (d nl.2.lat nl.2.lng ≤ one)).bind
          fun nl => nl.2.county
  | [] => rfl
  | nl :: l => by
    rw [find_county_in, List.find?_cons]
    rcases hc : nl.2.county with _ | cty
    · simp [hc, find_county_eq_spec d one l]
    · by_cases hd : d nl.2.lat nl.2.lng ≤ one
      · simp [hc, hd]
      · simp [hc, hd, find_county_eq_spec d one l]

theorem determine_location_d_eq_spec {α : Type} [LinearOrder α] (d : ℚ → ℚ → α)
    (five fifty one : α) (lat lng : ℚ) (gps_db : List (String × Country)) :
    determine_location_d d five fifty one lat lng gps_db =
      determine_location_spec_d d five fifty one lat lng gps_db := by
  unfold determine_location_d determine_location_spec_d
  rw [← find_country_eq_find?]
  rcases hc : find_country lat lng gps_db with _ | cc
  · rfl
  · dsimp only
    rw [← find_subdivision_eq_find?]
    rcases hs : find_subdivision lat lng cc.2 with _ | sc
    · rfl
    · dsimp only
      rw [← find_landmark_eq_spec, ← find_city_eq_spec, ← find_county_eq_spec]

/-- C5: for every coordinate and reference database, `determine_location`
resolves the country as the first country in declared order whose bounding box
contains the point; the subdivision as the first containing box scanning
states, provinces, regions, emirates, countries, governorates in that order;
the landmark as the nearest landmark of that subdivision within 5 km of
Haversine distance (Earth radius 6371 km), inheriting its city and county when
present; the city, when no landmark supplied one, as the nearest major city
within 50 km; the county (USA only, when not set by a landmark) from the
first landmark within 1 km carrying a county; and `full_location` as the
non-empty parts joined with a comma and space in the order landmark, city if
distinct from the landmark, county plus a County suffix for the USA, state,
country, falling back to the country value when nothing resolved.  Stated as
equality between the source-shaped pipeline and the specification-shaped one,
both over the real-valued Haversine distance. -/
theorem determine_location_matches_spec (lat lng : ℚ) (gps_db : List (String × Country)) :
    determine_location lat lng gps_db = determine_location_spec lat lng gps_db :=
  determine_location_d_eq_spec (fun la ln => haversine_distance lat lng la ln)
    (5 : ℝ) 50 1 lat lng gps_db

/-! ## Helper lemmas for the geo-resolution pass -/

theorem jGet_obj {k : String} {v w : Json} (h : jGet k v = some w) :
    ∃ l, v = Json.jobj l := by
  rcases v with _ | b | q | s | arr | l
  · simp [jGet] at h
  · simp [jGet] at h
  · simp [jGet] at h
  · simp [jGet] at h
  · simp [jGet] at h
  · exact ⟨l, rfl⟩

theorem patchUser_only_home (resolve : ℚ → ℚ → LocRes) (u u2 : Json)
    (h : patchUser resolve u = some u2) :
    (u2 = u ∨ ∃ hl2, u2 = setHome u hl2) ∧ (jNoCoords u = true → u2 = u) := by
  unfold patchUser at h
  rcases h1 : jHasKey "location_analysis" u with _ | b1
  · simp [h1] at h
  rcases b1 with _ | _
  · simp [h1] at h
    subst h
    exact ⟨Or.inl rfl, fun _ => rfl⟩
  simp only [h1] at h
  rcases h2 : jGet "location_analysis" u with _ | la
  · simp [h2] at h
  simp only [h2] at h
  rcases h3 : jHasKey "home_location" la with _ | b3
  · simp [h3] at h
  rcases b3 with _ | _
  · simp [h3] at h
    subst h
    exact ⟨Or.inl rfl, fun _ => rfl⟩
  simp only [h3] at h
  rcases h4 : jGet "home_location" la with _ | hl
  · simp [h4] at h
  simp only [h4] at h
  rcases h5 : jTruthy hl with _ | _
  · simp [h5] at h
    subst h
    exact ⟨Or.inl rfl, fun _ => rfl⟩
  simp only [h5, Bool.not_true, Bool.false_eq_true, if_false] at h
  rcases h6 : jHasKey "coordinates" hl with _ | b6
  · simp [h6] at h
  rcases b6 with _ | _
  · simp [h6] at h
    subst h
    refine ⟨Or.inl rfl, fun _ => rfl⟩
  simp only [h6] at h
  rcases h7 : jGet "coordinates" hl with _ | co
  · simp [h7] at h
  simp only [h7] at h
  rcases h8 : jTruthy co with _ | _
  · simp [h8] at h
    subst h
    exact ⟨Or.inl rfl, fun _ => rfl⟩
  simp only [h8, Bool.not_true, Bool.false_eq_true, if_false] at h
  rcases hA : (jGet "lat" co).bind jNumVal with _ | lat
  · simp [hA] at h
  rcases hB : (jGet "lng" co).bind jNumVal with _ | lng
  · simp [hA, hB] at h
  simp only [hA, hB] at h
  obtain ⟨hlf, rfl⟩ := jGet_obj h7
  simp only [Option.some.injEq] at h
  refine ⟨Or.inr ⟨Json.jobj (patchHL (resolve lat lng) hlf), h.symm⟩, fun hnc => ?_⟩
  exfalso
  simp [jNoCoords, h2, h4, h6] at hnc

/-- C9: for every record of the input collection, the geo-resolution pass
modifies only the `location_analysis.home_location` sub-object — every other
field of the record is unchanged in the output — and for every record whose
`home_location` is `null` or lacks a `coordinates` key, even `home_location`
itself is left identical (the pass is a no-op on the record). -/
theorem process_instagram_data_frame (resolve : ℚ → ℚ → LocRes)
    (records out : List Json) (h : processRecords resolve records = some out) :
    List.Forall₂ (fun u u2 =>
      (u2 = u ∨ ∃ hl2, u2 = setHome u hl2) ∧ (jNoCoords u = true → u2 = u))
      records out := by
  induction records generalizing out with
  | nil =>
      unfold processRecords at h
      injection h with h
      exact h ▸ List.Forall₂.nil
  | cons u rest ih =>
      unfold processRecords at h
      rcases hu : patchUser resolve u with _ | u2
      · simp [hu] at h
      rcases hr : processRecords resolve rest with _ | rest2
      · simp [hu, hr] at h
      simp only [hu, hr, Option.some.injEq] at h
      subst h
      exact List.Forall₂.cons (patchUser_only_home resolve u u2 hu) (ih rest2 hr)

theorem process_instagram_data_frame_witness :
    processRecords (fun _ _ => blankLocRes)
        [Json.jobj [("location_analysis", Json.jobj [("home_location", Json.jnull)]),
          ("username", Json.jstr "bob")]] =
      some [Json.jobj [("location_analysis", Json.jobj [("home_location", Json.jnull)]),
          ("username", Json.jstr "bob")]] ∧
      List.Forall₂ (fun u u2 =>
        (u2 = u ∨ ∃ hl2, u2 = setHome u hl2) ∧ (jNoCoords u = true → u2 = u))
        [Json.jobj [("location_analysis", Json.jobj [("home_location", Json.jnull)]),
          ("username", Json.jstr "bob")]]
        [Json.jobj [("location_analysis", Json.jobj [("home_location", Json.jnull)]),
          ("username", Json.jstr "bob")]] :=
  ⟨rfl, process_instagram_data_frame (fun _ _ => blankLocRes) _ _ rfl⟩

end InstaAnalyzer
